import Mathlib

/-!
Verification of the round-planning and adaptive-distractor engine of the
national-flag quiz game (a Vite + React + TypeScript app).

The embedding translates the planning/selection engine from
`src/App.tsx` and `src/services/flagDifficultyService.ts`:

* JavaScript `Set<string>` values are embedded as deduplicated `List String`
  values (iteration only ever counts or tests membership, so any
  duplicate-free representative is faithful).
* JavaScript numbers reaching the scorer and the weighted sampler are
  embedded as `Rat` (all arithmetic performed on them is exact: integer
  sums, halving, subtraction and comparison).
* `Math.random()` is embedded as an explicit oracle.  A Fisher-Yates step
  computes `Math.floor(Math.random() * (i + 1))`, whose possible values are
  exactly `0 .. i`; the oracle supplies `rng i` and the step uses
  `rng i % (i + 1)`, which ranges over exactly the same values.  The
  weighted sampler multiplies `Math.random()` by the total weight, so its
  oracle supplies the raw rational draw directly.
* `Record<string, T>` lookups are embedded as `String → Option T` when the
  record is only read, and as association lists (later entries win, as for
  repeated `Map.set` / record assignment) when the code builds the record.

The `types.ts` module of the repository is not part of the sources; the
`Country` and `FlagAttributes` records below are modelled from the spec's
data-model section restricted to the fields the engine reads.
-/

namespace FlagGame

/-- Entity record (spec §3): identity is the 3-letter `cca3` code; the
remaining fields are the display names and the geographic region classifier
that the engine reads (`translations.jpn?.common`, `translations.jpn?.official`,
`name.common`, `name.official`, `region`). -/
structure Country where
  cca3 : String
  region : String
  jpnCommon : Option String
  jpnOfficial : Option String
  nameCommon : String
  nameOfficial : String
deriving DecidableEq, Repr

/-- Per-entity tag-group record (spec §3): every field is an optional set of
string tags.  `none` models an absent field, `some []` an explicitly empty
one. -/
structure FlagAttributes where
  layout : Option (List String)
  motif : Option (List String)
  group : Option (List String)
  color : Option (List String)
  region : Option (List String)
deriving DecidableEq, Repr

/-- A list of countries has pairwise-distinct `cca3` identifiers. -/
def Cca3Distinct (l : List Country) : Prop := (l.map Country.cca3).Nodup

instance (l : List Country) : Decidable (Cca3Distinct l) := by
  unfold Cca3Distinct
  infer_instance

/-! ## Tag-similarity scorer (`flagDifficultyService.ts`) -/

/-- Source `toTagSet(tags?: string[])` builds a `Set` from an optional tag array:
embedded as deduplication of the underlying list (`tags ?? []`). -/
def toTagSet (tags : Option (List String)) : List String := (tags.getD []).dedup

/-- Source `countSharedTags`: number of tags of `source` also present in `target`. -/
def countSharedTags (source target : List String) : Nat :=
  (source.filter (fun tag => decide (tag ∈ target))).length

/-- Source `hasSameTags`: the two tag sets have the same size and every tag of the
left one occurs in the right one. -/
def hasSameTags (left right : List String) : Prop :=
  left.length = right.length ∧ countSharedTags left right = left.length

instance (left right : List String) : Decidable (hasSameTags left right) := by
  unfold hasSameTags; infer_instance

/-- Source `getSimilarityScore` from `flagDifficultyService.ts`: full-weight overlap
on `layout`, `motif` and `group`, half-weight overlap on `color` and
`region`, plus a flat bonus of 1 for a non-empty exact color-palette
match.  The JavaScript multiplication by `0.5` is embedded as exact
division by 2 on `Rat`. -/
def getSimilarityScore (sourceAttributes candidateAttributes : FlagAttributes) : Rat :=
  let fullScore : Nat :=
    countSharedTags (toTagSet sourceAttributes.layout) (toTagSet candidateAttributes.layout) +
    countSharedTags (toTagSet sourceAttributes.motif) (toTagSet candidateAttributes.motif) +
    countSharedTags (toTagSet sourceAttributes.group) (toTagSet candidateAttributes.group)
  let sourceColorSet := toTagSet sourceAttributes.color
  let candidateColorSet := toTagSet candidateAttributes.color
  let colorScore : Rat := (countSharedTags sourceColorSet candidateColorSet : Rat) / 2
  let regionScore : Rat :=
    (countSharedTags (toTagSet sourceAttributes.region) (toTagSet candidateAttributes.region) : Rat) / 2
  let bonus : Rat :=
    if 0 < sourceColorSet.length ∧ hasSameTags sourceColorSet candidateColorSet then 1 else 0
  (fullScore : Rat) + colorScore + regionScore + bonus

/-- Tag group as a finite set, for stating the spec's formula. -/
def tagFinset (tags : Option (List String)) : Finset String := (tags.getD []).toFinset

/-- The similarity formula exactly as the specification words it: intersection
cardinalities with weights 1, 1, 1, 0.5, 0.5, plus a flat bonus of 1 when the
source color set is non-empty and equal to the candidate color set. -/
def similarityScoreSpec (a b : FlagAttributes) : Rat :=
  ((tagFinset a.layout ∩ tagFinset b.layout).card : Rat) +
  ((tagFinset a.motif ∩ tagFinset b.motif).card : Rat) +
  ((tagFinset a.group ∩ tagFinset b.group).card : Rat) +
  ((tagFinset a.color ∩ tagFinset b.color).card : Rat) / 2 +
  ((tagFinset a.region ∩ tagFinset b.region).card : Rat) / 2 +
  (if tagFinset a.color ≠ ∅ ∧ tagFinset a.color = tagFinset b.color then 1 else 0)

/-! ## Fisher-Yates shuffle (`shuffleCountries` in both source files) -/

/-- Swap the entries at positions `i` and `j`; identity when either index is
out of range (in the shuffle both are always in range). -/
def swapIdx {α : Type _} (l : List α) (i j : Nat) : List α :=
  match l[i]?, l[j]? with
  | some a, some b => (l.set i b).set j a
  | _, _ => l

/-- One pass of the Fisher-Yates loop: `go l i` still has to process the
indices `i, i-1, ..., 1`, swapping index `i` with `rng i % (i + 1)`. -/
def fisherYatesGo {α : Type _} (rng : Nat → Nat) : List α → Nat → List α
  | l, 0 => l
  | l, i + 1 => fisherYatesGo rng (swapIdx l (i + 1) (rng (i + 1) % (i + 2))) i

/-- Source `shuffleCountries`: copy the list and run the Fisher-Yates downward loop
from `length - 1` to `1`. -/
def fisherYates {α : Type _} (rng : Nat → Nat) (l : List α) : List α :=
  fisherYatesGo rng l (l.length - 1)

/-! ## Weighted index sampling (`pickWeightedIndex`) -/

/-- Body of the subtracting loop of `pickWeightedIndex`: walk the weights,
subtracting each from the remaining random mass, returning the current index
as soon as the mass drops to zero or below; falling off the end returns the
last index (`i` holds the number of weights already consumed, so the final
answer is `i - 1`). -/
def pickWeightedIndexGo : List Rat → Rat → Nat → Nat
  | [], _, i => i - 1
  | w :: ws, remaining, i =>
    if remaining - w ≤ 0 then i else pickWeightedIndexGo ws (remaining - w) (i + 1)

/-- Source `pickWeightedIndex(weights)`: draw `r * totalWeight` of random mass
(`r` is the `Math.random()` oracle draw) and walk the weights; a
non-positive total short-circuits to index 0. -/
def pickWeightedIndex (weights : List Rat) (r : Rat) : Nat :=
  let totalWeight := weights.foldl (· + ·) 0
  if totalWeight ≤ 0 then 0 else pickWeightedIndexGo weights (r * totalWeight) 0

/-! ## Hard-mode distractor selector (`pickHardModeDistractors`) -/

/-- Random oracle for one call of `pickHardModeDistractors`: the shuffle used
when the target has no attributes, the successive `Math.random()` draws of
the weighted sampling loop (indexed by how many distractors are already
selected), and the shuffle of the fallback top-up. -/
structure Rand where
  shuffleA : Nat → Nat
  weightedR : Nat → Rat
  shuffleB : Nat → Nat

def HARD_MODE_CANDIDATE_LIMIT : Nat := 15

/-- A candidate country with its similarity score against the target. -/
structure ScoredCandidate where
  country : Country
  score : Rat
deriving DecidableEq, Repr

/-- A scored candidate with its rank-based sampling weight. -/
structure RankedCandidate where
  country : Country
  score : Rat
  weight : Nat
deriving DecidableEq, Repr

/-- Scoring, sorting and weighting pipeline of `pickHardModeDistractors`:
keep the candidates that have attributes, score each against the target,
sort descending by score (the JavaScript comparator `right.score -
left.score` puts `l` before `r` when `r.score ≤ l.score`), keep the top 15
and give the candidate of rank `i` the weight `15 - i`. -/
def rankCandidates (candidateCountries : List Country)
    (attributesByCca3 : String → Option FlagAttributes)
    (sourceAttributes : FlagAttributes) : List RankedCandidate :=
  let scored := candidateCountries.filterMap (fun country =>
    (attributesByCca3 country.cca3).map (fun candidateAttributes =>
      ScoredCandidate.mk country (getSimilarityScore sourceAttributes candidateAttributes)))
  let sorted := scored.mergeSort (fun l r => decide (r.score ≤ l.score))
  ((sorted.take HARD_MODE_CANDIDATE_LIMIT).enum).map
    (fun p => RankedCandidate.mk p.2.country p.2.score (HARD_MODE_CANDIDATE_LIMIT - p.1))

/-- The weighted sampling-without-replacement loop of
`pickHardModeDistractors`: while fewer than `distractorCount` countries are
selected and the pool is non-empty, draw an index with probability
proportional to the remaining weights, move that candidate from the pool to
the selection.  The JavaScript expression `weightedPool[pickedIndex]` would
crash on an out-of-range index; that is modelled by the `none` result, and
`hardSelect_isSome` proves it unreachable. -/
def poolPickIndex (rand : Rand) (weightedPool : List RankedCandidate)
    (selected : List Country) : Nat :=
  pickWeightedIndex (weightedPool.map (fun candidate => (candidate.weight : Rat)))
    (rand.weightedR selected.length)

def hardSelect (rand : Rand) (distractorCount : Nat) (weightedPool : List RankedCandidate)
    (selected : List Country) : Option (List Country) :=
  if h : selected.length < distractorCount ∧ weightedPool ≠ [] then
    match hidx : weightedPool[poolPickIndex rand weightedPool selected]? with
    | some picked =>
      hardSelect rand distractorCount
        (weightedPool.eraseIdx (poolPickIndex rand weightedPool selected))
        (selected ++ [picked.country])
    | none => none
  else some selected
termination_by weightedPool.length
decreasing_by
  have hlt : poolPickIndex rand weightedPool selected < weightedPool.length :=
    (List.getElem?_eq_some_iff.mp hidx).1
  simp only [List.length_eraseIdx, if_pos hlt]
  omega

/-- Source `pickHardModeDistractors` from `flagDifficultyService.ts`.  The
out-of-range crash modelled by `hardSelect`'s `none` is defaulted to `[]`;
`hardSelect_isSome` shows the default is never taken. -/
def pickHardModeDistractors (rand : Rand) (questionCountry : Country)
    (candidateCountries : List Country) (distractorCount : Nat)
    (attributesByCca3 : String → Option FlagAttributes) : List Country :=
  if distractorCount = 0 ∨ candidateCountries = [] then []
  else
    match attributesByCca3 questionCountry.cca3 with
    | none => (fisherYates rand.shuffleA candidateCountries).take distractorCount
    | some sourceAttributes =>
      let rankedCandidates := rankCandidates candidateCountries attributesByCca3 sourceAttributes
      let selected := (hardSelect rand distractorCount rankedCandidates []).getD []
      if distractorCount ≤ selected.length then selected
      else
        let selectedSet := selected.map Country.cca3
        let fallbackCountries :=
          (fisherYates rand.shuffleB
            (candidateCountries.filter (fun country => !selectedSet.contains country.cca3))).take
            (distractorCount - selected.length)
        selected ++ fallbackCountries

/-! ## Round planner (`App.tsx`) -/

/-- The six game modes of `App.tsx`. -/
inductive GameMode
  | flagToMap
  | nameToFlag
  | flagToName
  | mapToFlag
  | memoryNameToFlag
  | memoryFlagToName
deriving DecidableEq, Repr

def isMemoryMode : GameMode → Bool
  | .memoryNameToFlag => true
  | .memoryFlagToName => true
  | _ => false

def isStandardChoiceMode : GameMode → Bool
  | .nameToFlag => true
  | .flagToName => true
  | _ => false

def modeUsesOptions (mode : GameMode) : Bool := mode != .flagToMap

/-- Settings bundle; the two numeric fields are arbitrary integers and are
clamped inside `buildRoundPlan` exactly as in the source. -/
structure GameSettings where
  maxRounds : Int
  optionCount : Int
  highDifficulty : Bool
deriving DecidableEq, Repr

def MIN_ROUNDS : Int := 1

def MAX_ROUNDS : Int := 10

def MIN_OPTION_COUNT : Int := 2

def MAX_OPTION_COUNT : Int := 9

/-- Source `Math.max(MIN_ROUNDS, Math.min(MAX_ROUNDS, settings.maxRounds))`,
converted to `Nat` (the clamped value is at least 1). -/
def clampedMaxRounds (settings : GameSettings) : Nat :=
  (max MIN_ROUNDS (min MAX_ROUNDS settings.maxRounds)).toNat

/-- Source `Math.max(MIN_OPTION_COUNT, Math.min(MAX_OPTION_COUNT, settings.optionCount))`,
converted to `Nat` (the clamped value is at least 2). -/
def clampedOptionCount (settings : GameSettings) : Nat :=
  (max MIN_OPTION_COUNT (min MAX_OPTION_COUNT settings.optionCount)).toNat

/-- One planned round: the question entity and its (possibly empty) ordered
option list. -/
structure RoundPlanItem where
  questionCountry : Country
  options : List Country
deriving DecidableEq, Repr

/-- Memory-drill category families. -/
inductive MemoryCategoryType
  | region
  | motif
  | layout
deriving DecidableEq, Repr

/-- A memory-drill category (`ctype` embeds the `type` field). -/
structure MemoryCategory where
  id : String
  ctype : MemoryCategoryType
  tags : Option (List String)
deriving DecidableEq, Repr

/-- Source `COUNTRY_REGION_TO_MEMORY_REGION` from `App.tsx`. -/
def COUNTRY_REGION_TO_MEMORY_REGION : List (String × String) :=
  [("Americas", "americas"), ("Europe", "europe"), ("Africa", "africa"),
   ("Asia", "asia"), ("Oceania", "oceania")]

/-- Source `getMemoryRegionForCountry`: translate the entity's geographic region to
a memory region, `none` when unmapped. -/
def getMemoryRegionForCountry (country : Country) : Option String :=
  (COUNTRY_REGION_TO_MEMORY_REGION.find? (fun p => p.1 == country.region)).map (fun p => p.2)

/-- Source `hasAnyTag`: both tag arrays are present and non-empty and share a tag. -/
def hasAnyTag (sourceTags targetTags : Option (List String)) : Bool :=
  match sourceTags, targetTags with
  | some source, some target =>
    if source.isEmpty || target.isEmpty then false
    else source.any (fun tag => target.contains tag)
  | _, _ => false

/-- Source `getMemoryCategoryCountries`: filter the valid pool down to the members
of a memory category.  Region categories match on the mapped geographic
region; tag categories require the entity to be present in the attribute
index, the special id `motif-simple` selecting entities whose motif list is
absent or empty. -/
def getMemoryCategoryCountries (validCountries : List Country)
    (attributesByCca3 : String → Option FlagAttributes)
    (category : MemoryCategory) : List Country :=
  if category.ctype = .region then
    validCountries.filter (fun country =>
      getMemoryRegionForCountry country == some category.id)
  else
    validCountries.filter (fun country =>
      match attributesByCca3 country.cca3 with
      | none => false
      | some attributes =>
        if category.id = "motif-simple" then (attributes.motif.getD []).length == 0
        else if category.ctype = .motif then hasAnyTag attributes.motif category.tags
        else hasAnyTag attributes.layout category.tags)

/-- Source `pickRandomCountries`: shuffle and take a prefix. -/
def pickRandomCountries (rng : Nat → Nat) (source : List Country) (count : Nat) : List Country :=
  (fisherYates rng source).take count

/-- Random oracle for one `buildRoundPlan` call: the pool shuffle, one
distractor-selection oracle per round index, and one option-shuffle oracle
per round index. -/
structure PlanRand where
  poolShuffle : Nat → Nat
  distract : Nat → Rand
  optShuffle : Nat → Nat → Nat

/-- The per-question loop of the memory branch of `buildRoundPlan`: iterate
over the shuffled category members (`queue` is the part still to process,
`roundIdx` its starting position), drawing each round's distractors from all
other members of the shuffled set. -/
def buildMemoryRounds (pr : PlanRand) (highDifficulty : Bool)
    (attributesByCca3 : String → Option FlagAttributes)
    (memoryCountries : List Country) (effectiveOptionCount : Nat) :
    List Country → Nat → Option (List RoundPlanItem)
  | [], _ => some []
  | questionCountry :: queue, roundIdx =>
    let candidates := memoryCountries.filter (fun country => country.cca3 != questionCountry.cca3)
    let distractorCount := effectiveOptionCount - 1
    let distractors :=
      if highDifficulty then
        pickHardModeDistractors (pr.distract roundIdx) questionCountry candidates
          distractorCount attributesByCca3
      else pickRandomCountries (pr.distract roundIdx).shuffleA candidates distractorCount
    if distractors.length < distractorCount then none
    else
      match buildMemoryRounds pr highDifficulty attributesByCca3 memoryCountries
          effectiveOptionCount queue (roundIdx + 1) with
      | none => none
      | some restPlan =>
        some (RoundPlanItem.mk questionCountry
          (fisherYates (pr.optShuffle roundIdx) (questionCountry :: distractors)) :: restPlan)

/-- The per-round loop of the global multiple-choice branch of
`buildRoundPlan`: `n` rounds remain, `remainingCountries` is the working
queue; each round pops the question, draws `optionCount - 1` distractors
from the rest of the queue and removes every queue entry whose identifier
was used as a distractor. -/
def buildGlobalRounds (pr : PlanRand) (highDifficulty : Bool)
    (attributesByCca3 : String → Option FlagAttributes) (optionCount : Nat) :
    Nat → Nat → List Country → Option (List RoundPlanItem)
  | 0, _, _ => some []
  | _ + 1, _, [] => none
  | n + 1, roundIdx, questionCountry :: remainingCountries =>
    let distractorCount := optionCount - 1
    let distractors :=
      if highDifficulty then
        pickHardModeDistractors (pr.distract roundIdx) questionCountry remainingCountries
          distractorCount attributesByCca3
      else pickRandomCountries (pr.distract roundIdx).shuffleA remainingCountries distractorCount
    if distractors.length < distractorCount then none
    else
      let distractorCca3Set := distractors.map Country.cca3
      let nextRemaining :=
        remainingCountries.filter (fun country => !distractorCca3Set.contains country.cca3)
      match buildGlobalRounds pr highDifficulty attributesByCca3 optionCount n (roundIdx + 1)
          nextRemaining with
      | none => none
      | some restPlan =>
        some (RoundPlanItem.mk questionCountry
          (fisherYates (pr.optShuffle roundIdx) (questionCountry :: distractors)) :: restPlan)

/-- Source `buildRoundPlan` from `App.tsx`: clamp the settings, then plan by mode
family — memory drills cover the whole shuffled category, option modes
consume a shuffled global queue, and the no-option mode takes a shuffled
prefix with empty option lists.  `none` is the infeasibility sentinel. -/
def buildRoundPlan (pr : PlanRand) (mode : GameMode) (validCountries : List Country)
    (settings : GameSettings) (attributesByCca3 : String → Option FlagAttributes)
    (memoryCategory : Option MemoryCategory) : Option (List RoundPlanItem) :=
  let maxRounds := clampedMaxRounds settings
  let optionCount := clampedOptionCount settings
  if isMemoryMode mode then
    match memoryCategory with
    | none => none
    | some category =>
      let memoryCountries :=
        fisherYates pr.poolShuffle
          (getMemoryCategoryCountries validCountries attributesByCca3 category)
      if memoryCountries.length < MIN_OPTION_COUNT.toNat then none
      else
        let effectiveOptionCount := min optionCount memoryCountries.length
        buildMemoryRounds pr settings.highDifficulty attributesByCca3 memoryCountries
          effectiveOptionCount memoryCountries 0
  else if modeUsesOptions mode then
    let requiredCountries := maxRounds * optionCount
    if validCountries.length < requiredCountries then none
    else
      buildGlobalRounds pr settings.highDifficulty attributesByCca3 optionCount maxRounds 0
        (fisherYates pr.poolShuffle validCountries)
  else
    if validCountries.length < maxRounds then none
    else
      some (((fisherYates pr.poolShuffle validCountries).take maxRounds).map
        (fun questionCountry => RoundPlanItem.mk questionCountry []))

/-- The effective option count of a plan, as the spec describes it: the
clamped option count, except for memory drills where it is additionally
capped by the size of the filtered category. -/
def planEffectiveOptionCount (mode : GameMode) (validCountries : List Country)
    (settings : GameSettings) (attributesByCca3 : String → Option FlagAttributes)
    (memoryCategory : Option MemoryCategory) : Nat :=
  if isMemoryMode mode then
    match memoryCategory with
    | none => 0
    | some category =>
      min (clampedOptionCount settings)
        (getMemoryCategoryCountries validCountries attributesByCca3 category).length
  else clampedOptionCount settings

/-! ## Attribute resolver (`buildFlagAttributesByCca3`) -/

/-- Whitespace trimming from both ends, embedded explicitly on the
character list (the behaviour of `String.prototype.trim`). -/
def trimName (s : String) : String :=
  String.mk (((s.data.dropWhile Char.isWhitespace).reverse.dropWhile
    Char.isWhitespace).reverse)

/-- Source `normalizeCountryName`: trim and apply canonical Unicode normalization.
NFKC normalization is an opaque host-library function; it is passed in as
the parameter `nfkc`. -/
def normalizeCountryName (nfkc : String → String) (name : String) : String :=
  nfkc (trimName name)

/-- Source `toLooseCountryName`: the normalized name with every whitespace
character and the interpunct characters removed (the `/[\s・･]/g`
replacement). -/
def toLooseCountryName (nfkc : String → String) (name : String) : String :=
  String.mk ((normalizeCountryName nfkc name).data.filter
    (fun ch => !(ch.isWhitespace || ch == '・' || ch == '･')))

/-- The four display-name slots of `getCountryNameCandidates`, in priority
order: localized common, localized official, default common, default
official. -/
def countryNameSlots (country : Country) : List (Option String) :=
  [country.jpnCommon, country.jpnOfficial, some country.nameCommon, some country.nameOfficial]

/-- Helper for `dedupKeepFirst`: `seen` accumulates names already kept. -/
def dedupKeepFirstAux : List String → List String → List String
  | [], _ => []
  | x :: xs, seen =>
    if seen.contains x then dedupKeepFirstAux xs seen
    else x :: dedupKeepFirstAux xs (x :: seen)

/-- First-occurrence deduplication, as `Array.from(new Set(...))` produces. -/
def dedupKeepFirst (l : List String) : List String := dedupKeepFirstAux l []

/-- Source `getCountryNameCandidates`: present non-empty names (the `Boolean(name)`
filter drops absent and empty strings), deduplicated keeping first
occurrences, then normalized. -/
def getCountryNameCandidates (nfkc : String → String) (country : Country) : List String :=
  (dedupKeepFirst (((countryNameSlots country).filterMap id).filter
    (fun name => name != ""))).map (normalizeCountryName nfkc)

/-- Lookup in a JavaScript `Map` built by successive `set` calls over the
entry list: the last entry with the key wins. -/
def mapGet (entries : List (String × FlagAttributes)) (key : String) : Option FlagAttributes :=
  (entries.reverse.find? (fun e => e.1 == key)).map (fun e => e.2)

/-- The `byExactName` index: raw keys normalized. -/
def byExactNameGet (nfkc : String → String) (raw : List (String × FlagAttributes))
    (key : String) : Option FlagAttributes :=
  mapGet (raw.map (fun e => (normalizeCountryName nfkc e.1, e.2))) key

/-- The `byLooseName` index: raw keys normalized and then loosened. -/
def byLooseNameGet (nfkc : String → String) (raw : List (String × FlagAttributes))
    (key : String) : Option FlagAttributes :=
  mapGet (raw.map (fun e =>
    (toLooseCountryName nfkc (normalizeCountryName nfkc e.1), e.2))) key

/-- Body of the per-entity loop of `buildFlagAttributesByCca3`: try every
candidate name against the exact index and bind the first hit; only if none
hits, retry the candidates against the loose index; `none` when the entity
has no match at all. -/
def resolveCountry (nfkc : String → String) (raw : List (String × FlagAttributes))
    (country : Country) : Option (String × FlagAttributes) :=
  let candidates := getCountryNameCandidates nfkc country
  match candidates.find? (fun name => (byExactNameGet nfkc raw name).isSome) with
  | some exactMatch =>
    (byExactNameGet nfkc raw exactMatch).map (fun a => (country.cca3, a))
  | none =>
    match candidates.find? (fun name =>
        (byLooseNameGet nfkc raw (toLooseCountryName nfkc name)).isSome) with
    | some looseMatchName =>
      (byLooseNameGet nfkc raw (toLooseCountryName nfkc looseMatchName)).map
        (fun a => (country.cca3, a))
    | none => none

/-- Source `buildFlagAttributesByCca3`: resolve every entity, omitting the
unresolved ones.  The result models the built `Record` as its assignment
list (`mapGet` reads it back). -/
def buildFlagAttributesByCca3 (nfkc : String → String) (countries : List Country)
    (raw : List (String × FlagAttributes)) : List (String × FlagAttributes) :=
  countries.filterMap (resolveCountry nfkc raw)

/-! ## Sample data used by the concrete witnesses and counterexamples -/

def sampleRand : Rand := Rand.mk (fun _ => 0) (fun _ => 0) (fun _ => 0)

def samplePlanRand : PlanRand := PlanRand.mk (fun _ => 0) (fun _ => sampleRand) (fun _ _ => 0)

def noAttributes : String → Option FlagAttributes := fun _ => none

def countryA : Country := Country.mk "AAA" "Europe" none none "Alpha" "Alpha Republic"

def countryB : Country := Country.mk "BBB" "Europe" none none "Beta" "Beta Republic"

def sampleSettings : GameSettings := GameSettings.mk 1 2 false

def motifSimpleCategory : MemoryCategory := MemoryCategory.mk "motif-simple" .motif none

def europeCategory : MemoryCategory := MemoryCategory.mk "europe" .region none

def emptyAttributes : FlagAttributes := FlagAttributes.mk none none none none none

def emptyMotifAttributes : FlagAttributes := FlagAttributes.mk none (some []) none none none

def distinguishAttributes : String → Option FlagAttributes := fun key =>
  if key = "AAA" then some emptyMotifAttributes else some emptyAttributes

def countryJ : Country := Country.mk "JPN" "Asia" (some "Nihon") none "Japan" "State of Japan"

def layoutAttributes : FlagAttributes := FlagAttributes.mk (some ["circle"]) none none none none

def sunAttributes : FlagAttributes := FlagAttributes.mk none (some ["sun"]) none none none

def sampleRaw : List (String × FlagAttributes) :=
  [("Nihon", layoutAttributes), ("Japan", sunAttributes)]

theorem dedup_toFinset {α : Type _} [DecidableEq α] (l : List α) :
    l.dedup.toFinset = l.toFinset := by
  ext a
  simp [List.mem_dedup]

theorem countSharedTags_toTagSet (x y : Option (List String)) :
    countSharedTags (toTagSet x) (toTagSet y) = (tagFinset x ∩ tagFinset y).card := by
  unfold countSharedTags toTagSet tagFinset
  set l := x.getD [] with hl
  set m := y.getD [] with hm
  have hnd : (l.dedup.filter (fun tag => decide (tag ∈ m.dedup))).Nodup :=
    (l.nodup_dedup).filter _
  rw [← List.toFinset_card_of_nodup hnd]
  congr 1
  rw [List.toFinset_filter]
  ext a
  simp [List.mem_dedup]

theorem toTagSet_length_eq_card (x : Option (List String)) :
    (toTagSet x).length = (tagFinset x).card := by
  unfold toTagSet tagFinset
  rw [← dedup_toFinset, List.toFinset_card_of_nodup (List.nodup_dedup _)]

theorem hasSameTags_iff (x y : Option (List String)) :
    hasSameTags (toTagSet x) (toTagSet y) ↔ tagFinset x = tagFinset y := by
  unfold hasSameTags
  rw [countSharedTags_toTagSet, toTagSet_length_eq_card, toTagSet_length_eq_card]
  constructor
  · rintro ⟨hcard, hshared⟩
    have hsub : tagFinset x ∩ tagFinset y = tagFinset x :=
      Finset.eq_of_subset_of_card_le Finset.inter_subset_left (le_of_eq hshared.symm)
    have hxsuby : tagFinset x ⊆ tagFinset y := by
      intro a ha
      have hmem : a ∈ tagFinset x ∩ tagFinset y := by rw [hsub]; exact ha
      exact (Finset.mem_inter.mp hmem).2
    exact Finset.eq_of_subset_of_card_le hxsuby (le_of_eq hcard.symm)
  · intro h
    rw [h, Finset.inter_self]
    exact ⟨rfl, rfl⟩

theorem getSimilarityScore_eq_spec (a b : FlagAttributes) :
    getSimilarityScore a b = similarityScoreSpec a b := by
  unfold getSimilarityScore similarityScoreSpec
  simp only [countSharedTags_toTagSet, toTagSet_length_eq_card]
  have hbonus :
      (0 < (tagFinset a.color).card ∧ hasSameTags (toTagSet a.color) (toTagSet b.color)) ↔
      (tagFinset a.color ≠ ∅ ∧ tagFinset a.color = tagFinset b.color) := by
    rw [hasSameTags_iff]
    constructor
    · rintro ⟨hpos, heq⟩
      exact ⟨Finset.card_pos.mp hpos |>.ne_empty, heq⟩
    · rintro ⟨hne, heq⟩
      refine ⟨Finset.card_pos.mpr ?_, heq⟩
      exact Finset.nonempty_iff_ne_empty.mpr hne
  rw [if_congr hbonus rfl rfl]
  push_cast
  ring

theorem cons_set_perm {α : Type _} :
    ∀ (t : List α) (m : Nat) (a b : α), t[m]? = some b → (b :: t.set m a).Perm (a :: t)
  | [], m, a, b, h => by simp at h
  | c :: t, 0, a, b, h => by
    simp only [List.getElem?_cons_zero, Option.some.injEq] at h
    rw [← h]
    simpa using List.Perm.swap a c t
  | c :: t, m + 1, a, b, h => by
    simp only [List.getElem?_cons_succ] at h
    have ih := cons_set_perm t m a b h
    have heq : (c :: t).set (m + 1) a = c :: t.set m a := by simp
    rw [heq]
    exact (List.Perm.swap c b _).trans ((ih.cons c).trans (List.Perm.swap a c t))

theorem set_set_perm {α : Type _} :
    ∀ (l : List α) (i j : Nat) (a b : α),
      l[i]? = some a → l[j]? = some b → ((l.set i b).set j a).Perm l
  | [], i, j, a, b, h, _ => by simp at h
  | c :: t, 0, 0, a, b, h1, h2 => by
    simp only [List.getElem?_cons_zero, Option.some.injEq] at h1 h2
    subst h1; subst h2
    simp
  | c :: t, 0, j + 1, a, b, h1, h2 => by
    simp only [List.getElem?_cons_zero, Option.some.injEq, List.getElem?_cons_succ] at h1 h2
    have heq : ((c :: t).set 0 b).set (j + 1) a = b :: t.set j a := by simp
    rw [heq, ← h1]
    exact cons_set_perm t j c b h2
  | c :: t, i + 1, 0, a, b, h1, h2 => by
    simp only [List.getElem?_cons_succ, List.getElem?_cons_zero, Option.some.injEq] at h1 h2
    have heq : ((c :: t).set (i + 1) b).set 0 a = a :: t.set i b := by simp
    rw [heq, ← h2]
    exact cons_set_perm t i c a h1
  | c :: t, i + 1, j + 1, a, b, h1, h2 => by
    simp only [List.getElem?_cons_succ] at h1 h2
    have ih := set_set_perm t i j a b h1 h2
    have : ((c :: t).set (i + 1) b).set (j + 1) a = c :: (t.set i b).set j a := by simp
    rw [this]
    exact ih.cons c

theorem swapIdx_perm {α : Type _} (l : List α) (i j : Nat) : (swapIdx l i j).Perm l := by
  unfold swapIdx
  match h1 : l[i]?, h2 : l[j]? with
  | some a, some b => exact set_set_perm l i j a b h1 h2
  | some a, none => exact List.Perm.refl l
  | none, some b => exact List.Perm.refl l
  | none, none => exact List.Perm.refl l

theorem fisherYatesGo_perm {α : Type _} (rng : Nat → Nat) :
    ∀ (n : Nat) (l : List α), (fisherYatesGo rng l n).Perm l
  | 0, l => List.Perm.refl l
  | n + 1, l =>
    (fisherYatesGo_perm rng n _).trans (swapIdx_perm l (n + 1) (rng (n + 1) % (n + 2)))

theorem fisherYates_perm {α : Type _} (rng : Nat → Nat) (l : List α) :
    (fisherYates rng l).Perm l :=
  fisherYatesGo_perm rng (l.length - 1) l

theorem fisherYates_length {α : Type _} (rng : Nat → Nat) (l : List α) :
    (fisherYates rng l).length = l.length :=
  (fisherYates_perm rng l).length_eq

theorem pickWeightedIndexGo_lt :
    ∀ (ws : List Rat) (remaining : Rat) (i : Nat), 0 < i + ws.length →
      pickWeightedIndexGo ws remaining i < i + ws.length
  | [], _, i, h => by
    simp only [pickWeightedIndexGo, List.length_nil, Nat.add_zero] at h ⊢
    omega
  | w :: ws, remaining, i, _ => by
    simp only [pickWeightedIndexGo, List.length_cons]
    split
    · omega
    · have := pickWeightedIndexGo_lt ws (remaining - w) (i + 1) (by omega)
      omega

/-- For a non-empty weight list the chosen index is always in range,
whatever the random draw and whatever the weights. -/
theorem pickWeightedIndex_lt (weights : List Rat) (r : Rat) (h : weights ≠ []) :
    pickWeightedIndex weights r < weights.length := by
  have hlen : 0 < weights.length := List.length_pos.mpr h
  unfold pickWeightedIndex
  dsimp only
  split
  · exact hlen
  · have := pickWeightedIndexGo_lt weights (r * weights.foldl (· + ·) 0) 0 (by omega)
    omega

theorem poolPickIndex_lt (rand : Rand) (weightedPool : List RankedCandidate)
    (selected : List Country) (h : weightedPool ≠ []) :
    poolPickIndex rand weightedPool selected < weightedPool.length := by
  have hne : (weightedPool.map (fun candidate => (candidate.weight : Rat))) ≠ [] := by
    simpa using h
  have := pickWeightedIndex_lt _ (rand.weightedR selected.length) hne
  simpa [poolPickIndex] using this

/-- The selection loop never performs an out-of-range pool access. -/
theorem hardSelect_isSome (rand : Rand) (distractorCount : Nat) :
    ∀ (n : Nat) (weightedPool : List RankedCandidate) (selected : List Country),
      weightedPool.length ≤ n → (hardSelect rand distractorCount weightedPool selected).isSome := by
  intro n
  induction n with
  | zero =>
    intro weightedPool selected h0
    have : weightedPool = [] := List.length_eq_zero.mp (Nat.le_zero.mp h0)
    subst this
    rw [hardSelect]
    simp
  | succ n ih =>
    intro weightedPool selected hn
    rw [hardSelect]
    split
    · next h =>
      have hlt : poolPickIndex rand weightedPool selected < weightedPool.length :=
        poolPickIndex_lt rand weightedPool selected h.2
      split
      · next picked hidx =>
        apply ih
        simp only [List.length_eraseIdx, if_pos hlt]
        omega
      · next hidx =>
        rw [List.getElem?_eq_none_iff] at hidx
        omega
    · simp

theorem clampedMaxRounds_pos (settings : GameSettings) : 1 ≤ clampedMaxRounds settings := by
  unfold clampedMaxRounds MIN_ROUNDS MAX_ROUNDS
  omega

theorem clampedOptionCount_ge_two (settings : GameSettings) :
    2 ≤ clampedOptionCount settings := by
  unfold clampedOptionCount MIN_OPTION_COUNT MAX_OPTION_COUNT
  omega

/-! ## Selector correctness lemmas -/

theorem perm_getElem_cons_eraseIdx {α : Type _} (l : List α) (i : Nat) (h : i < l.length) :
    l.Perm (l[i] :: l.eraseIdx i) := by
  conv_lhs => rw [← List.take_append_drop i l]
  rw [← List.getElem_cons_drop l i h, List.eraseIdx_eq_take_drop_succ]
  exact List.perm_middle

theorem fisherYates_map_perm {α β : Type _} (rng : Nat → Nat) (l : List α) (f : α → β) :
    ((fisherYates rng l).map f).Perm (l.map f) :=
  (fisherYates_perm rng l).map f

theorem pickRandomCountries_subset (rng : Nat → Nat) (source : List Country) (count : Nat) :
    ∀ x ∈ pickRandomCountries rng source count, x ∈ source := by
  intro x hx
  have h1 : x ∈ fisherYates rng source := (List.take_sublist _ _).subset hx
  exact (fisherYates_perm rng source).subset h1

theorem pickRandomCountries_length (rng : Nat → Nat) (source : List Country) (count : Nat) :
    (pickRandomCountries rng source count).length = min count source.length := by
  unfold pickRandomCountries
  rw [List.length_take, fisherYates_length]

theorem pickRandomCountries_nodup (rng : Nat → Nat) (source : List Country) (count : Nat)
    (h : Cca3Distinct source) : Cca3Distinct (pickRandomCountries rng source count) := by
  unfold Cca3Distinct pickRandomCountries
  rw [List.map_take]
  refine List.Nodup.sublist (List.take_sublist _ _) ?_
  exact ((fisherYates_map_perm rng source Country.cca3).nodup_iff).mpr h

theorem length_filter_contains (l3 s : List String) (hl : l3.Nodup) (hs : s.Nodup)
    (hsub : ∀ x ∈ s, x ∈ l3) :
    (l3.filter (fun x => s.contains x)).length = s.length := by
  have hnd : (l3.filter (fun x => s.contains x)).Nodup := hl.filter _
  refine List.Perm.length_eq (List.perm_of_nodup_nodup_toFinset_eq hnd hs ?_)
  ext a
  have hca : (s.contains a = true) ↔ a ∈ s := by simp
  simp only [List.mem_toFinset, List.mem_filter, hca]
  exact ⟨fun hx => hx.2, fun hx => ⟨hsub a hx, hx⟩⟩

theorem length_filter_not_contains (l : List Country) (s : List String)
    (hl : (l.map Country.cca3).Nodup) (hs : s.Nodup)
    (hsub : ∀ x ∈ s, x ∈ l.map Country.cca3) :
    (l.filter (fun c => !s.contains c.cca3)).length = l.length - s.length := by
  have hmap : ((l.map Country.cca3).filter (fun x => !s.contains x)) =
      (l.filter (fun c => !s.contains c.cca3)).map Country.cca3 := by
    rw [List.filter_map]
    rfl
  have hsplit : ((l.map Country.cca3).filter (fun x => s.contains x)).length +
      ((l.map Country.cca3).filter (fun x => !s.contains x)).length =
      (l.map Country.cca3).length := by
    have := (List.filter_append_perm (fun x => s.contains x) (l.map Country.cca3)).length_eq
    simpa using this
  have hin := length_filter_contains (l.map Country.cca3) s hl hs hsub
  have hlen : ((l.map Country.cca3).filter (fun x => !s.contains x)).length =
      (l.filter (fun c => !s.contains c.cca3)).length := by
    rw [hmap, List.length_map]
  rw [List.length_map] at hsplit
  omega

/-- The `country` projection of the ranked candidates is the `country`
projection of the sorted-and-truncated scored list. -/
theorem rankCandidates_map_country (candidateCountries : List Country)
    (attributesByCca3 : String → Option FlagAttributes) (sourceAttributes : FlagAttributes) :
    (rankCandidates candidateCountries attributesByCca3 sourceAttributes).map
        (fun rc => rc.country) =
      (((candidateCountries.filterMap (fun country =>
          (attributesByCca3 country.cca3).map (fun candidateAttributes =>
            ScoredCandidate.mk country
              (getSimilarityScore sourceAttributes candidateAttributes)))).mergeSort
        (fun l r => decide (r.score ≤ l.score))).take HARD_MODE_CANDIDATE_LIMIT).map
        (fun sc => sc.country) := by
  unfold rankCandidates
  rw [List.map_map]
  have hcomp : ((fun rc : RankedCandidate => rc.country) ∘ fun p : Nat × ScoredCandidate =>
      RankedCandidate.mk p.2.country p.2.score (HARD_MODE_CANDIDATE_LIMIT - p.1)) =
      (fun sc : ScoredCandidate => sc.country) ∘ Prod.snd := rfl
  rw [hcomp, ← List.map_map, List.enum_map_snd]

theorem scored_map_country_sublist (candidateCountries : List Country)
    (attributesByCca3 : String → Option FlagAttributes) (sourceAttributes : FlagAttributes) :
    ((candidateCountries.filterMap (fun country =>
        (attributesByCca3 country.cca3).map (fun candidateAttributes =>
          ScoredCandidate.mk country
            (getSimilarityScore sourceAttributes candidateAttributes)))).map
      (fun sc => sc.country)).Sublist candidateCountries := by
  induction candidateCountries with
  | nil => simp
  | cons c t ih =>
    rw [List.filterMap_cons]
    cases attributesByCca3 c.cca3 with
    | none => simpa using ih.cons c
    | some ca => simpa using ih.cons₂ c

theorem rankCandidates_map_country_subset (candidateCountries : List Country)
    (attributesByCca3 : String → Option FlagAttributes) (sourceAttributes : FlagAttributes) :
    ∀ x ∈ (rankCandidates candidateCountries attributesByCca3 sourceAttributes).map
      (fun rc => rc.country), x ∈ candidateCountries := by
  rw [rankCandidates_map_country]
  intro x hx
  have h1 := (List.take_sublist HARD_MODE_CANDIDATE_LIMIT _).map
    (fun sc : ScoredCandidate => sc.country) |>.subset hx
  have h2 := ((List.mergeSort_perm _ (fun l r : ScoredCandidate =>
    decide (r.score ≤ l.score))).map (fun sc : ScoredCandidate => sc.country)).mem_iff.mp h1
  exact (scored_map_country_sublist candidateCountries attributesByCca3
    sourceAttributes).subset h2

theorem rankCandidates_map_cca3_nodup (candidateCountries : List Country)
    (attributesByCca3 : String → Option FlagAttributes) (sourceAttributes : FlagAttributes)
    (h : Cca3Distinct candidateCountries) :
    (((rankCandidates candidateCountries attributesByCca3 sourceAttributes).map
      (fun rc => rc.country)).map Country.cca3).Nodup := by
  rw [rankCandidates_map_country]
  have hscored : (((candidateCountries.filterMap (fun country =>
      (attributesByCca3 country.cca3).map (fun candidateAttributes =>
        ScoredCandidate.mk country
          (getSimilarityScore sourceAttributes candidateAttributes)))).map
      (fun sc => sc.country)).map Country.cca3).Nodup :=
    ((scored_map_country_sublist candidateCountries attributesByCca3
      sourceAttributes).map Country.cca3).nodup h
  have hsorted := (((List.mergeSort_perm _ (fun l r : ScoredCandidate =>
    decide (r.score ≤ l.score))).map (fun sc : ScoredCandidate => sc.country)).map
      Country.cca3).nodup_iff.mpr hscored
  exact (((List.take_sublist HARD_MODE_CANDIDATE_LIMIT _).map
    (fun sc : ScoredCandidate => sc.country)).map Country.cca3).nodup hsorted

theorem rankCandidates_length_le (candidateCountries : List Country)
    (attributesByCca3 : String → Option FlagAttributes) (sourceAttributes : FlagAttributes) :
    (rankCandidates candidateCountries attributesByCca3 sourceAttributes).length ≤
      candidateCountries.length := by
  have h1 : (rankCandidates candidateCountries attributesByCca3 sourceAttributes).length =
      ((rankCandidates candidateCountries attributesByCca3 sourceAttributes).map
        (fun rc => rc.country)).length := by rw [List.length_map]
  rw [h1, rankCandidates_map_country, List.length_map]
  calc (((candidateCountries.filterMap _).mergeSort _).take HARD_MODE_CANDIDATE_LIMIT).length
      ≤ ((candidateCountries.filterMap (fun country =>
          (attributesByCca3 country.cca3).map (fun candidateAttributes =>
            ScoredCandidate.mk country
              (getSimilarityScore sourceAttributes candidateAttributes)))).mergeSort
          (fun l r => decide (r.score ≤ l.score))).length :=
        (List.take_sublist _ _).length_le
    _ = (candidateCountries.filterMap _).length := (List.mergeSort_perm _ _).length_eq
    _ ≤ candidateCountries.length := List.length_filterMap_le _ _

theorem hardSelect_stop (rand : Rand) (distractorCount : Nat)
    (weightedPool : List RankedCandidate) (selected : List Country)
    (h : ¬(selected.length < distractorCount ∧ weightedPool ≠ [])) :
    hardSelect rand distractorCount weightedPool selected = some selected := by
  rw [hardSelect, dif_neg h]

theorem hardSelect_step (rand : Rand) (distractorCount : Nat)
    (weightedPool : List RankedCandidate) (selected : List Country) (picked : RankedCandidate)
    (h : selected.length < distractorCount ∧ weightedPool ≠ [])
    (hidx : weightedPool[poolPickIndex rand weightedPool selected]? = some picked) :
    hardSelect rand distractorCount weightedPool selected =
      hardSelect rand distractorCount
        (weightedPool.eraseIdx (poolPickIndex rand weightedPool selected))
        (selected ++ [picked.country]) := by
  conv_lhs => rw [hardSelect]
  rw [dif_pos h]
  split
  · next p hp =>
    rw [hp] at hidx
    rw [Option.some.inj hidx]
  · next hp => rw [hp] at hidx; exact absurd hidx (by simp)

/-- Full functional specification of the weighted selection loop: starting
from a selection and pool whose countries have jointly distinct identifiers,
it extends the selection by exactly `min (distractorCount - selected.length)
weightedPool.length` countries taken from the pool, keeping identifiers
distinct. -/
theorem hardSelect_spec (rand : Rand) (distractorCount : Nat) :
    ∀ (n : Nat) (weightedPool : List RankedCandidate) (selected : List Country),
      weightedPool.length ≤ n →
      ((selected ++ weightedPool.map (fun rc => rc.country)).map Country.cca3).Nodup →
      ∃ extra : List Country,
        hardSelect rand distractorCount weightedPool selected = some (selected ++ extra) ∧
        extra.length = min (distractorCount - selected.length) weightedPool.length ∧
        (∀ c ∈ extra, c ∈ weightedPool.map (fun rc => rc.country)) ∧
        ((selected ++ extra).map Country.cca3).Nodup := by
  intro n
  induction n with
  | zero =>
    intro pool sel hn hnd
    have hpool : pool = [] := List.length_eq_zero.mp (Nat.le_zero.mp hn)
    subst hpool
    refine ⟨[], ?_, by simp, by simp, by simpa using hnd⟩
    rw [hardSelect_stop rand distractorCount [] sel (by simp), List.append_nil]
  | succ n ih =>
    intro pool sel hn hnd
    by_cases h : sel.length < distractorCount ∧ pool ≠ []
    · have hlt : poolPickIndex rand pool sel < pool.length := poolPickIndex_lt rand pool sel h.2
      have hidx : pool[poolPickIndex rand pool sel]? = some pool[poolPickIndex rand pool sel] :=
        List.getElem?_eq_getElem hlt
      rw [hardSelect_step rand distractorCount pool sel _ h hidx]
      have hperm : pool.Perm (pool[poolPickIndex rand pool sel] ::
          pool.eraseIdx (poolPickIndex rand pool sel)) :=
        perm_getElem_cons_eraseIdx pool _ hlt
      have hlenerase : (pool.eraseIdx (poolPickIndex rand pool sel)).length = pool.length - 1 := by
        simp only [List.length_eraseIdx, if_pos hlt]
      have hpermFull : ((sel ++ [pool[poolPickIndex rand pool sel].country]) ++
          (pool.eraseIdx (poolPickIndex rand pool sel)).map (fun rc => rc.country)).Perm
          (sel ++ pool.map (fun rc => rc.country)) := by
        rw [List.append_assoc, List.singleton_append]
        refine List.Perm.append_left sel ?_
        have := (hperm.map (fun rc => rc.country)).symm
        simpa using this
      have hnd2 : (((sel ++ [pool[poolPickIndex rand pool sel].country]) ++
          (pool.eraseIdx (poolPickIndex rand pool sel)).map (fun rc => rc.country)).map
            Country.cca3).Nodup :=
        ((hpermFull.map Country.cca3).nodup_iff).mpr hnd
      obtain ⟨extra, heq, hlen, hmem, hndsel⟩ :=
        ih (pool.eraseIdx (poolPickIndex rand pool sel))
          (sel ++ [pool[poolPickIndex rand pool sel].country]) (by omega) hnd2
      refine ⟨pool[poolPickIndex rand pool sel].country :: extra, ?_, ?_, ?_, ?_⟩
      · rw [heq, List.append_assoc, List.singleton_append]
      · have h1 := h.1
        rw [List.length_append, List.length_singleton, hlenerase] at hlen
        simp only [List.length_cons, hlen]
        omega
      · intro c hc
        rcases List.mem_cons.mp hc with hc | hc
        · subst hc
          exact List.mem_map_of_mem (fun rc => rc.country) (List.getElem_mem hlt)
        · have := hmem c hc
          exact (((List.eraseIdx_sublist pool (poolPickIndex rand pool sel)).map
            (fun rc => rc.country)).subset) this
      · rw [← List.singleton_append, ← List.append_assoc]
        exact hndsel
    · refine ⟨[], ?_, ?_, by simp, ?_⟩
      · rw [hardSelect_stop rand distractorCount pool sel h, List.append_nil]
      · push_neg at h
        rcases Nat.lt_or_ge sel.length distractorCount with hc | hc
        · have : pool = [] := h hc
          simp [this]
        · simp
          omega
      · rw [List.append_nil]
        rw [List.map_append] at hnd
        exact hnd.of_append_left

/-- Functional specification of `pickHardModeDistractors` for a candidate
list with pairwise-distinct identifiers: the result draws from the
candidates, keeps identifiers distinct, and has length exactly
`min distractorCount candidateCountries.length`. -/
theorem pickHardModeDistractors_spec (rand : Rand) (questionCountry : Country)
    (candidateCountries : List Country) (distractorCount : Nat)
    (attributesByCca3 : String → Option FlagAttributes)
    (hnd : Cca3Distinct candidateCountries) :
    (∀ x ∈ pickHardModeDistractors rand questionCountry candidateCountries distractorCount
        attributesByCca3, x ∈ candidateCountries) ∧
    Cca3Distinct (pickHardModeDistractors rand questionCountry candidateCountries
        distractorCount attributesByCca3) ∧
    (pickHardModeDistractors rand questionCountry candidateCountries distractorCount
        attributesByCca3).length = min distractorCount candidateCountries.length := by
  unfold pickHardModeDistractors
  split
  · next hz =>
    refine ⟨by simp, by simp [Cca3Distinct], ?_⟩
    rcases hz with hz | hz
    · simp [hz]
    · simp [hz]
  · next hz =>
    split
    · next hattr =>
      exact ⟨pickRandomCountries_subset rand.shuffleA candidateCountries distractorCount,
        pickRandomCountries_nodup rand.shuffleA candidateCountries distractorCount hnd,
        pickRandomCountries_length rand.shuffleA candidateCountries distractorCount⟩
    · next sourceAttributes hattr =>
      have hrnodup := rankCandidates_map_cca3_nodup candidateCountries attributesByCca3
        sourceAttributes hnd
      have hrsub := rankCandidates_map_country_subset candidateCountries attributesByCca3
        sourceAttributes
      have hrlen := rankCandidates_length_le candidateCountries attributesByCca3 sourceAttributes
      have hnd0 : ((([] : List Country) ++ (rankCandidates candidateCountries attributesByCca3
          sourceAttributes).map (fun rc => rc.country)).map Country.cca3).Nodup := by
        rw [List.nil_append]
        exact hrnodup
      obtain ⟨extra, heq, hlen, hmem, hndsel⟩ :=
        hardSelect_spec rand distractorCount
          (rankCandidates candidateCountries attributesByCca3 sourceAttributes).length
          (rankCandidates candidateCountries attributesByCca3 sourceAttributes) []
          le_rfl hnd0
      rw [List.nil_append] at heq hndsel
      simp only [heq, Option.getD_some]
      have hextraSub : ∀ x ∈ extra, x ∈ candidateCountries := fun x hx => hrsub x (hmem x hx)
      have hextraNodup : (extra.map Country.cca3).Nodup := hndsel
      simp only [List.length_nil, Nat.sub_zero] at hlen
      split
      · next htake =>
        refine ⟨hextraSub, hextraNodup, ?_⟩
        omega
      · next htake =>
        have hsub3 : ∀ x ∈ extra.map Country.cca3, x ∈ candidateCountries.map Country.cca3 := by
          intro x hx
          obtain ⟨c, hc, rfl⟩ := List.mem_map.mp hx
          exact List.mem_map_of_mem Country.cca3 (hextraSub c hc)
        have hremlen : (candidateCountries.filter (fun country =>
            !(extra.map Country.cca3).contains country.cca3)).length =
            candidateCountries.length - extra.length := by
          have := length_filter_not_contains candidateCountries (extra.map Country.cca3)
            hnd hextraNodup hsub3
          rw [List.length_map] at this
          exact this
        have hremNodup : Cca3Distinct (candidateCountries.filter (fun country =>
            !(extra.map Country.cca3).contains country.cca3)) :=
          List.Nodup.sublist ((List.filter_sublist candidateCountries).map Country.cca3) hnd
        have hfbSub := pickRandomCountries_subset rand.shuffleB
          (candidateCountries.filter (fun country =>
            !(extra.map Country.cca3).contains country.cca3))
          (distractorCount - extra.length)
        have hfbNodup := pickRandomCountries_nodup rand.shuffleB
          (candidateCountries.filter (fun country =>
            !(extra.map Country.cca3).contains country.cca3))
          (distractorCount - extra.length) hremNodup
        have hfbLen := pickRandomCountries_length rand.shuffleB
          (candidateCountries.filter (fun country =>
            !(extra.map Country.cca3).contains country.cca3))
          (distractorCount - extra.length)
        unfold pickRandomCountries at hfbSub hfbNodup hfbLen
        refine ⟨?_, ?_, ?_⟩
        · intro x hx
          rcases List.mem_append.mp hx with hx | hx
          · exact hextraSub x hx
          · exact (List.mem_filter.mp (hfbSub x hx)).1
        · unfold Cca3Distinct
          rw [List.map_append]
          refine List.Nodup.append hextraNodup hfbNodup ?_
          intro a ha hafb
          obtain ⟨c, hc, rfl⟩ := List.mem_map.mp hafb
          have hcrem := hfbSub c hc
          have := (List.mem_filter.mp hcrem).2
          simp only [Bool.not_eq_eq_eq_not, Bool.not_true, List.contains_eq_any_beq] at this
          have hmem3 : c.cca3 ∈ extra.map Country.cca3 := ha
          rw [List.any_eq_false] at this
          have := this c.cca3 hmem3
          simp at this
        · rw [List.length_append]
          rw [hfbLen, hremlen]
          omega

/-! ## Planner correctness lemmas -/

/-- Either distractor source (hard or easy mode) draws from the candidates,
keeps identifiers distinct, and returns exactly
`min count candidateCountries.length` countries when the candidates have
pairwise-distinct identifiers. -/
theorem distractors_spec (rand : Rand) (highDifficulty : Bool) (questionCountry : Country)
    (candidateCountries : List Country) (count : Nat)
    (attributesByCca3 : String → Option FlagAttributes)
    (hnd : Cca3Distinct candidateCountries) :
    (∀ x ∈ (if highDifficulty then
        pickHardModeDistractors rand questionCountry candidateCountries count attributesByCca3
      else pickRandomCountries rand.shuffleA candidateCountries count), x ∈ candidateCountries) ∧
    Cca3Distinct (if highDifficulty then
        pickHardModeDistractors rand questionCountry candidateCountries count attributesByCca3
      else pickRandomCountries rand.shuffleA candidateCountries count) ∧
    (if highDifficulty then
        pickHardModeDistractors rand questionCountry candidateCountries count attributesByCca3
      else pickRandomCountries rand.shuffleA candidateCountries count).length =
      min count candidateCountries.length := by
  cases highDifficulty
  · simp only [Bool.false_eq_true, if_false]
    exact ⟨pickRandomCountries_subset rand.shuffleA candidateCountries count,
      pickRandomCountries_nodup rand.shuffleA candidateCountries count hnd,
      pickRandomCountries_length rand.shuffleA candidateCountries count⟩
  · simp only [if_true]
    exact pickHardModeDistractors_spec rand questionCountry candidateCountries count
      attributesByCca3 hnd

/-- Functional specification of the memory-drill round loop: on success it
produces one round per queue entry, the questions being exactly the queue in
order; and when the shuffled category has distinct identifiers and the
effective option count is at least 1, every round's options have exactly the
effective size, contain the question exactly once and have no duplicate
identifiers. -/
theorem buildMemoryRounds_spec (pr : PlanRand) (highDifficulty : Bool)
    (attributesByCca3 : String → Option FlagAttributes) (memoryCountries : List Country)
    (effectiveOptionCount : Nat) :
    ∀ (queue : List Country) (roundIdx : Nat) (plan : List RoundPlanItem),
      buildMemoryRounds pr highDifficulty attributesByCca3 memoryCountries effectiveOptionCount
        queue roundIdx = some plan →
      plan.map (fun it => it.questionCountry) = queue ∧
      (Cca3Distinct memoryCountries → 1 ≤ effectiveOptionCount →
        ∀ it ∈ plan, it.options.length = effectiveOptionCount ∧
          it.questionCountry ∈ it.options ∧ Cca3Distinct it.options ∧
          it.options.count it.questionCountry = 1) := by
  intro queue
  induction queue with
  | nil =>
    intro roundIdx plan heq
    simp only [buildMemoryRounds, Option.some.injEq] at heq
    subst heq
    exact ⟨rfl, fun _ _ it hit => absurd hit (List.not_mem_nil it)⟩
  | cons questionCountry queue ih =>
    intro roundIdx plan heq
    rw [buildMemoryRounds] at heq
    set ds := (if highDifficulty then
        pickHardModeDistractors (pr.distract roundIdx) questionCountry
          (memoryCountries.filter (fun country => country.cca3 != questionCountry.cca3))
          (effectiveOptionCount - 1) attributesByCca3
      else pickRandomCountries (pr.distract roundIdx).shuffleA
        (memoryCountries.filter (fun country => country.cca3 != questionCountry.cca3))
        (effectiveOptionCount - 1)) with hds
    split at heq
    · exact absurd heq (by simp)
    · next hguard =>
      split at heq
      · exact absurd heq (by simp)
      · next restPlan hrec =>
        rw [Option.some.inj heq.symm]
        obtain ⟨hqs, hitems⟩ := ih (roundIdx + 1) restPlan hrec
        constructor
        · simp [hqs]
        · intro hmem heoc it hit
          rcases List.mem_cons.mp hit with hitem | hit
          · subst hitem
            have hcand : Cca3Distinct (memoryCountries.filter
                (fun country => country.cca3 != questionCountry.cca3)) :=
              List.Nodup.sublist ((List.filter_sublist memoryCountries).map Country.cca3) hmem
            obtain ⟨hdsub, hdnodup, hdlen⟩ :=
              distractors_spec (pr.distract roundIdx) highDifficulty questionCountry
                (memoryCountries.filter (fun country => country.cca3 != questionCountry.cca3))
                (effectiveOptionCount - 1) attributesByCca3 hcand
            rw [← hds] at hdsub hdnodup hdlen
            have hdslen : ds.length = effectiveOptionCount - 1 := by
              rw [Nat.not_lt] at hguard
              omega
            have hoptperm : (fisherYates (pr.optShuffle roundIdx)
                (questionCountry :: ds)).Perm (questionCountry :: ds) :=
              fisherYates_perm _ _
            have hq3 : questionCountry.cca3 ∉ ds.map Country.cca3 := by
              intro hq
              obtain ⟨c, hc, hceq⟩ := List.mem_map.mp hq
              have hcf := hdsub c hc
              have := (List.mem_filter.mp hcf).2
              simp only [bne_iff_ne, ne_eq] at this
              exact this hceq
            have hoptnodup : Cca3Distinct (questionCountry :: ds) := by
              unfold Cca3Distinct
              rw [List.map_cons, List.nodup_cons]
              exact ⟨hq3, hdnodup⟩
            refine ⟨?_, ?_, ?_, ?_⟩
            · simp only [hoptperm.length_eq, List.length_cons, hdslen]
              omega
            · exact hoptperm.mem_iff.mpr (List.mem_cons_self questionCountry ds)
            · exact ((hoptperm.map Country.cca3).nodup_iff).mpr hoptnodup
            · refine List.count_eq_one_of_mem ?_ ?_
              · exact List.Nodup.of_map Country.cca3
                  (((hoptperm.map Country.cca3).nodup_iff).mpr hoptnodup)
              · exact hoptperm.mem_iff.mpr (List.mem_cons_self questionCountry ds)
          · exact hitems hmem heoc it hit

theorem filter_contains_perm (l3 s : List String) (hl : l3.Nodup) (hs : s.Nodup)
    (hsub : ∀ x ∈ s, x ∈ l3) : (l3.filter (fun x => s.contains x)).Perm s := by
  refine List.perm_of_nodup_nodup_toFinset_eq (hl.filter _) hs ?_
  ext a
  have hca : (s.contains a = true) ↔ a ∈ s := by simp
  simp only [List.mem_toFinset, List.mem_filter, hca]
  exact ⟨fun hx => hx.2, fun hx => ⟨hsub a hx, hx⟩⟩

/-- Removing the used distractor identifiers from the queue partitions it:
the distractors plus the surviving queue entries are a permutation of the
whole queue (at the identifier level). -/
theorem filter_partition_perm (l s : List Country) (hl : Cca3Distinct l)
    (hs : Cca3Distinct s) (hsub : ∀ x ∈ s, x ∈ l) :
    ((s.map Country.cca3) ++
      (l.filter (fun c => !(s.map Country.cca3).contains c.cca3)).map Country.cca3).Perm
      (l.map Country.cca3) := by
  have hmap : ((l.map Country.cca3).filter (fun x => !(s.map Country.cca3).contains x)) =
      (l.filter (fun c => !(s.map Country.cca3).contains c.cca3)).map Country.cca3 := by
    rw [List.filter_map]
    rfl
  have hsub3 : ∀ x ∈ s.map Country.cca3, x ∈ l.map Country.cca3 := by
    intro x hx
    obtain ⟨c, hc, rfl⟩ := List.mem_map.mp hx
    exact List.mem_map_of_mem Country.cca3 (hsub c hc)
  have hin : ((l.map Country.cca3).filter
      (fun x => (s.map Country.cca3).contains x)).Perm (s.map Country.cca3) :=
    filter_contains_perm (l.map Country.cca3) (s.map Country.cca3) hl hs hsub3
  have hsplit := List.filter_append_perm (fun x => (s.map Country.cca3).contains x)
    (l.map Country.cca3)
  rw [← hmap]
  exact (List.Perm.append hin.symm (List.Perm.refl _)).trans hsplit

/-- Functional specification of the global round loop: on success it
produces exactly `n` rounds; the identifiers used in the rounds' options
together with some leftover are a permutation of the queue's identifiers
(so in particular no identifier is used twice); and each round has exactly
`optionCount` options containing its question. -/
theorem buildGlobalRounds_spec (pr : PlanRand) (highDifficulty : Bool)
    (attributesByCca3 : String → Option FlagAttributes) (optionCount : Nat)
    (hoc : 1 ≤ optionCount) :
    ∀ (n roundIdx : Nat) (remaining : List Country) (plan : List RoundPlanItem),
      Cca3Distinct remaining →
      buildGlobalRounds pr highDifficulty attributesByCca3 optionCount n roundIdx remaining =
        some plan →
      ∃ rest : List Country,
        plan.length = n ∧
        (((plan.flatMap (fun it => it.options)).map Country.cca3) ++
          rest.map Country.cca3).Perm (remaining.map Country.cca3) ∧
        ∀ it ∈ plan, it.options.length = optionCount ∧ it.questionCountry ∈ it.options := by
  intro n
  induction n with
  | zero =>
    intro roundIdx remaining plan _ heq
    simp only [buildGlobalRounds, Option.some.injEq] at heq
    subst heq
    exact ⟨remaining, rfl, by simp, fun it hit => absurd hit (List.not_mem_nil it)⟩
  | succ n ih =>
    intro roundIdx remaining plan hnd heq
    match remaining with
    | [] =>
      rw [buildGlobalRounds] at heq
      exact absurd heq (by simp)
    | questionCountry :: rem =>
      rw [buildGlobalRounds] at heq
      set ds := (if highDifficulty then
          pickHardModeDistractors (pr.distract roundIdx) questionCountry rem
            (optionCount - 1) attributesByCca3
        else pickRandomCountries (pr.distract roundIdx).shuffleA rem (optionCount - 1)) with hds
      split at heq
      · exact absurd heq (by simp)
      · next hguard =>
        simp only [] at heq
        split at heq
        · exact absurd heq (by simp)
        · next restPlan hrec =>
          have hplan := (Option.some.inj heq).symm
          subst hplan
          have hcons : ((questionCountry :: rem).map Country.cca3).Nodup := hnd
          rw [List.map_cons, List.nodup_cons] at hcons
          have hq3 : questionCountry.cca3 ∉ rem.map Country.cca3 := hcons.1
          have hremnd : Cca3Distinct rem := hcons.2
          obtain ⟨hdsub, hdnodup, hdlen⟩ := distractors_spec (pr.distract roundIdx)
            highDifficulty questionCountry rem (optionCount - 1) attributesByCca3 hremnd
          rw [← hds] at hdsub hdnodup hdlen
          have hdslen : ds.length = optionCount - 1 := by
            rw [Nat.not_lt] at hguard
            omega
          have hnextnd : Cca3Distinct (rem.filter
              (fun c => !(ds.map Country.cca3).contains c.cca3)) :=
            List.Nodup.sublist ((List.filter_sublist rem).map Country.cca3) hremnd
          obtain ⟨rest, hplen, hperm, hitems⟩ := ih (roundIdx + 1) _ restPlan hnextnd hrec
          have hoptperm : (fisherYates (pr.optShuffle roundIdx)
              (questionCountry :: ds)).Perm (questionCountry :: ds) := fisherYates_perm _ _
          refine ⟨rest, by simp [hplen], ?_, ?_⟩
          · rw [List.flatMap_cons, List.map_append, List.append_assoc]
            have hstep1 : (((fisherYates (pr.optShuffle roundIdx)
                (questionCountry :: ds)).map Country.cca3) ++
                ((restPlan.flatMap (fun it => it.options)).map Country.cca3 ++
                  rest.map Country.cca3)).Perm
                ((questionCountry.cca3 :: ds.map Country.cca3) ++
                  (rem.filter (fun c => !(ds.map Country.cca3).contains c.cca3)).map
                    Country.cca3) := by
              refine List.Perm.append ?_ hperm
              have := hoptperm.map Country.cca3
              simpa using this
            have hstep2 : ((questionCountry.cca3 :: ds.map Country.cca3) ++
                (rem.filter (fun c => !(ds.map Country.cca3).contains c.cca3)).map
                  Country.cca3).Perm ((questionCountry :: rem).map Country.cca3) := by
              rw [List.cons_append, List.map_cons]
              exact (filter_partition_perm rem ds hremnd hdnodup hdsub).cons questionCountry.cca3
            exact hstep1.trans hstep2
          · intro it hit
            rcases List.mem_cons.mp hit with hitem | hit
            · subst hitem
              constructor
              · simp only [hoptperm.length_eq, List.length_cons, hdslen]
                omega
              · exact hoptperm.mem_iff.mpr (List.mem_cons_self questionCountry ds)
            · exact hitems it hit

/-- When the queue has distinct identifiers and holds at least
`n * optionCount` entries, the global round loop always succeeds. -/
theorem buildGlobalRounds_total (pr : PlanRand) (highDifficulty : Bool)
    (attributesByCca3 : String → Option FlagAttributes) (optionCount : Nat)
    (hoc : 1 ≤ optionCount) :
    ∀ (n roundIdx : Nat) (remaining : List Country),
      Cca3Distinct remaining → n * optionCount ≤ remaining.length →
      ∃ plan, buildGlobalRounds pr highDifficulty attributesByCca3 optionCount n roundIdx
        remaining = some plan := by
  intro n
  induction n with
  | zero =>
    intro roundIdx remaining _ _
    exact ⟨[], by simp [buildGlobalRounds]⟩
  | succ n ih =>
    intro roundIdx remaining hnd hlen
    match remaining with
    | [] =>
      rw [Nat.succ_mul] at hlen
      simp only [List.length_nil] at hlen
      omega
    | questionCountry :: rem =>
      rw [Nat.succ_mul] at hlen
      simp only [List.length_cons] at hlen
      rw [buildGlobalRounds]
      set ds := (if highDifficulty then
          pickHardModeDistractors (pr.distract roundIdx) questionCountry rem
            (optionCount - 1) attributesByCca3
        else pickRandomCountries (pr.distract roundIdx).shuffleA rem (optionCount - 1)) with hds
      have hcons : ((questionCountry :: rem).map Country.cca3).Nodup := hnd
      rw [List.map_cons, List.nodup_cons] at hcons
      have hremnd : Cca3Distinct rem := hcons.2
      obtain ⟨hdsub, hdnodup, hdlen⟩ := distractors_spec (pr.distract roundIdx)
        highDifficulty questionCountry rem (optionCount - 1) attributesByCca3 hremnd
      rw [← hds] at hdsub hdnodup hdlen
      have hdslen : ds.length = optionCount - 1 := by
        rw [hdlen]
        omega
      rw [if_neg (by omega)]
      have hsub3 : ∀ x ∈ ds.map Country.cca3, x ∈ rem.map Country.cca3 := by
        intro x hx
        obtain ⟨c, hc, rfl⟩ := List.mem_map.mp hx
        exact List.mem_map_of_mem Country.cca3 (hdsub c hc)
      have hnext_len : (rem.filter
          (fun c => !(ds.map Country.cca3).contains c.cca3)).length =
          rem.length - (optionCount - 1) := by
        have := length_filter_not_contains rem (ds.map Country.cca3) hremnd hdnodup hsub3
        rw [List.length_map, hdslen] at this
        exact this
      have hnextnd : Cca3Distinct (rem.filter
          (fun c => !(ds.map Country.cca3).contains c.cca3)) :=
        List.Nodup.sublist ((List.filter_sublist rem).map Country.cca3) hremnd
      obtain ⟨restPlan, hrec⟩ := ih (roundIdx + 1)
        (rem.filter (fun c => !(ds.map Country.cca3).contains c.cca3)) hnextnd
        (by rw [hnext_len]; omega)
      simp only []
      rw [hrec]
      exact ⟨_, rfl⟩

theorem resolveCountry_key (nfkc : String → String) (raw : List (String × FlagAttributes))
    (country : Country) (p : String × FlagAttributes)
    (h : resolveCountry nfkc raw country = some p) : p.1 = country.cca3 := by
  unfold resolveCountry at h
  simp only [] at h
  split at h
  · obtain ⟨a, _, hp⟩ := Option.map_eq_some'.mp h
    rw [← hp]
  · split at h
    · obtain ⟨a, _, hp⟩ := Option.map_eq_some'.mp h
      rw [← hp]
    · exact absurd h (by simp)

theorem resolveCountry_exact (nfkc : String → String) (raw : List (String × FlagAttributes))
    (country : Country) (exactMatch : String) (a : FlagAttributes)
    (hfind : (getCountryNameCandidates nfkc country).find?
      (fun name => (byExactNameGet nfkc raw name).isSome) = some exactMatch)
    (ha : byExactNameGet nfkc raw exactMatch = some a) :
    resolveCountry nfkc raw country = some (country.cca3, a) := by
  unfold resolveCountry
  simp only []
  rw [hfind]
  show (byExactNameGet nfkc raw exactMatch).map (fun a => (country.cca3, a)) =
    some (country.cca3, a)
  rw [ha]
  rfl

theorem find?_key_of_mem :
    ∀ (entries : List (String × FlagAttributes)) (k : String) (v : FlagAttributes),
      (entries.map Prod.fst).Nodup → (k, v) ∈ entries →
      entries.find? (fun e => e.1 == k) = some (k, v)
  | [], _, _, _, hmem => absurd hmem (List.not_mem_nil _)
  | e :: rest, k, v, hnd, hmem => by
    rw [List.map_cons, List.nodup_cons] at hnd
    rcases List.mem_cons.mp hmem with hmem | hmem
    · rw [List.find?_cons_of_pos _ (by simp [← hmem])]
      exact congrArg some hmem.symm
    · have hk : k ∈ rest.map Prod.fst := by
        exact List.mem_map.mpr ⟨(k, v), hmem, rfl⟩
      have hne : (e.1 == k) = false := by
        by_contra hcontra
        have : e.1 = k := by
          cases h : (e.1 == k) with
          | false => exact absurd h hcontra
          | true => exact beq_iff_eq.mp h
        exact hnd.1 (this ▸ hk)
      rw [List.find?_cons_of_neg _ (by simp [hne])]
      exact find?_key_of_mem rest k v hnd.2 hmem

theorem mapGet_of_mem_of_nodup_keys (entries : List (String × FlagAttributes))
    (k : String) (v : FlagAttributes) (hnd : (entries.map Prod.fst).Nodup)
    (hmem : (k, v) ∈ entries) : mapGet entries k = some v := by
  unfold mapGet
  have hndrev : (entries.reverse.map Prod.fst).Nodup := by
    rw [List.map_reverse]
    exact List.nodup_reverse.mpr hnd
  rw [find?_key_of_mem entries.reverse k v hndrev (List.mem_reverse.mpr hmem)]
  rfl

theorem filterMap_keys_sublist (f : Country → Option (String × FlagAttributes))
    (hf : ∀ c p, f c = some p → p.1 = c.cca3) :
    ∀ l : List Country, ((l.filterMap f).map Prod.fst).Sublist (l.map Country.cca3)
  | [] => by simp
  | c :: t => by
    rw [List.filterMap_cons]
    cases hfc : f c with
    | none =>
      rw [List.map_cons]
      exact (filterMap_keys_sublist f hf t).cons c.cca3
    | some p =>
      rw [List.map_cons, List.map_cons, hf c p hfc]
      exact (filterMap_keys_sublist f hf t).cons₂ c.cca3

/-! ## Mode facts and branch equations for `buildRoundPlan` -/

theorem standard_not_memory (mode : GameMode) (h : isStandardChoiceMode mode = true) :
    isMemoryMode mode = false := by
  cases mode <;> simp_all [isStandardChoiceMode, isMemoryMode]

theorem standard_uses_options (mode : GameMode) (h : isStandardChoiceMode mode = true) :
    modeUsesOptions mode = true := by
  cases mode <;> simp_all [isStandardChoiceMode, modeUsesOptions]

theorem buildRoundPlan_global_eq (pr : PlanRand) (mode : GameMode)
    (validCountries : List Country) (settings : GameSettings)
    (attributesByCca3 : String → Option FlagAttributes)
    (memoryCategory : Option MemoryCategory) (hmem : isMemoryMode mode = false)
    (hopts : modeUsesOptions mode = true) :
    buildRoundPlan pr mode validCountries settings attributesByCca3 memoryCategory =
      if validCountries.length < clampedMaxRounds settings * clampedOptionCount settings then
        none
      else
        buildGlobalRounds pr settings.highDifficulty attributesByCca3
          (clampedOptionCount settings) (clampedMaxRounds settings) 0
          (fisherYates pr.poolShuffle validCountries) := by
  unfold buildRoundPlan
  simp [hmem, hopts]

theorem buildRoundPlan_memory_eq (pr : PlanRand) (mode : GameMode)
    (validCountries : List Country) (settings : GameSettings)
    (attributesByCca3 : String → Option FlagAttributes) (category : MemoryCategory)
    (hmem : isMemoryMode mode = true) :
    buildRoundPlan pr mode validCountries settings attributesByCca3 (some category) =
      if (fisherYates pr.poolShuffle
          (getMemoryCategoryCountries validCountries attributesByCca3 category)).length <
          MIN_OPTION_COUNT.toNat then none
      else
        buildMemoryRounds pr settings.highDifficulty attributesByCca3
          (fisherYates pr.poolShuffle
            (getMemoryCategoryCountries validCountries attributesByCca3 category))
          (min (clampedOptionCount settings)
            (fisherYates pr.poolShuffle
              (getMemoryCategoryCountries validCountries attributesByCca3 category)).length)
          (fisherYates pr.poolShuffle
            (getMemoryCategoryCountries validCountries attributesByCca3 category)) 0 := by
  unfold buildRoundPlan
  simp [hmem]

theorem buildRoundPlan_noOptions_eq (pr : PlanRand) (mode : GameMode)
    (validCountries : List Country) (settings : GameSettings)
    (attributesByCca3 : String → Option FlagAttributes)
    (memoryCategory : Option MemoryCategory) (hmem : isMemoryMode mode = false)
    (hopts : modeUsesOptions mode = false) :
    buildRoundPlan pr mode validCountries settings attributesByCca3 memoryCategory =
      if validCountries.length < clampedMaxRounds settings then none
      else
        some (((fisherYates pr.poolShuffle validCountries).take
          (clampedMaxRounds settings)).map
          (fun questionCountry => RoundPlanItem.mk questionCountry [])) := by
  unfold buildRoundPlan
  simp [hmem, hopts]

theorem buildRoundPlan_memory_none (pr : PlanRand) (mode : GameMode)
    (validCountries : List Country) (settings : GameSettings)
    (attributesByCca3 : String → Option FlagAttributes) (hmem : isMemoryMode mode = true) :
    buildRoundPlan pr mode validCountries settings attributesByCca3 none = none := by
  unfold buildRoundPlan
  simp [hmem]

theorem getMemoryCategoryCountries_sublist (validCountries : List Country)
    (attributesByCca3 : String → Option FlagAttributes) (category : MemoryCategory) :
    (getMemoryCategoryCountries validCountries attributesByCca3 category).Sublist
      validCountries := by
  unfold getMemoryCategoryCountries
  split
  · exact List.filter_sublist validCountries
  · exact List.filter_sublist validCountries

/-- Membership in the `motif-simple` category for an entity present in the
attribute index: exactly when its motif list is absent or empty. -/
theorem mem_motifSimple_iff (validCountries : List Country)
    (attributesByCca3 : String → Option FlagAttributes) (c : Country) (a : FlagAttributes)
    (hc : c ∈ validCountries) (ha : attributesByCca3 c.cca3 = some a) :
    c ∈ getMemoryCategoryCountries validCountries attributesByCca3 motifSimpleCategory ↔
      (a.motif.getD []).length = 0 := by
  unfold getMemoryCategoryCountries motifSimpleCategory
  rw [if_neg (by decide)]
  rw [List.mem_filter]
  simp [ha, hc]

/-! ## Claim theorems -/

/-- C6: for every pair of FlagAttributes records `a` and `b`,
`getSimilarityScore a b` equals the sum of the intersection sizes of the
layout, motif and group tag sets (weight 1 each), plus 0.5 times the
intersection size of the color sets, plus 0.5 times the intersection size
of the region sets, plus an additional 1 exactly when `a`'s color set is
non-empty and equals `b`'s color set. -/
theorem similarity_score_matches_spec (a b : FlagAttributes) :
    getSimilarityScore a b = similarityScoreSpec a b :=
  getSimilarityScore_eq_spec a b

/-- C8: `getSimilarityScore` is symmetric; in particular the
exact-color-match bonus of 1 is awarded in either both orders or neither. -/
theorem similarity_score_symm (a b : FlagAttributes) :
    getSimilarityScore a b = getSimilarityScore b a := by
  rw [getSimilarityScore_eq_spec, getSimilarityScore_eq_spec]
  unfold similarityScoreSpec
  rw [Finset.inter_comm (tagFinset a.layout), Finset.inter_comm (tagFinset a.motif),
    Finset.inter_comm (tagFinset a.group), Finset.inter_comm (tagFinset a.color),
    Finset.inter_comm (tagFinset a.region)]
  have hcond : (tagFinset a.color ≠ ∅ ∧ tagFinset a.color = tagFinset b.color) ↔
      (tagFinset b.color ≠ ∅ ∧ tagFinset b.color = tagFinset a.color) := by
    constructor
    · rintro ⟨h1, h2⟩
      exact ⟨h2 ▸ h1, h2.symm⟩
    · rintro ⟨h1, h2⟩
      exact ⟨h2 ▸ h1, h2.symm⟩
  rw [if_congr hcond rfl rfl]

/-- C10: for a non-empty, strictly positive weight list, `pickWeightedIndex`
returns an in-range index, and the weighted selection loop of
`pickHardModeDistractors` never performs an out-of-range pool access (the
crash modelled by `none` is unreachable for every pool and selection). -/
theorem weighted_pick_in_bounds_and_loop_safe (weights : List Rat) (r : Rat)
    (rand : Rand) (distractorCount : Nat) (weightedPool : List RankedCandidate)
    (selected : List Country) (hne : weights ≠ []) (hpos : ∀ w ∈ weights, 0 < w) :
    pickWeightedIndex weights r < weights.length ∧
    (hardSelect rand distractorCount weightedPool selected).isSome :=
  ⟨pickWeightedIndex_lt weights r hne,
    hardSelect_isSome rand distractorCount weightedPool.length weightedPool selected le_rfl⟩

/-- Witness for C10 at a concrete input. -/
theorem weighted_pick_in_bounds_and_loop_safe_witness :
    pickWeightedIndex [(1 : Rat)] 0 < 1 ∧
    (hardSelect sampleRand 1 [RankedCandidate.mk countryA 0 1] []).isSome :=
  weighted_pick_in_bounds_and_loop_safe [(1 : Rat)] 0 sampleRand 1
    [RankedCandidate.mk countryA 0 1] [] (by decide) (by decide)

/-- C5 counterexample: with a candidate list containing the target twice
(no attribute data, so the shuffle-and-take path runs), the function
returns the target and a duplicated identifier, refuting both the
target-exclusion and the no-duplicates parts of the claim as stated. -/
theorem pick_distractors_target_counterexample :
    countryA ∈ pickHardModeDistractors sampleRand countryA [countryA, countryA] 2
      noAttributes ∧
    ¬ ((pickHardModeDistractors sampleRand countryA [countryA, countryA] 2
      noAttributes).map Country.cca3).Nodup := by
  decide

/-- Without any hypothesis on the inputs, the selection loop never grows the
selection beyond `distractorCount`. -/
theorem hardSelect_length_le (rand : Rand) (distractorCount : Nat) :
    ∀ (n : Nat) (weightedPool : List RankedCandidate) (selected : List Country),
      weightedPool.length ≤ n → selected.length ≤ distractorCount →
      ∀ result, hardSelect rand distractorCount weightedPool selected = some result →
      result.length ≤ distractorCount := by
  intro n
  induction n with
  | zero =>
    intro pool sel hn hsel result heq
    have hpool : pool = [] := List.length_eq_zero.mp (Nat.le_zero.mp hn)
    subst hpool
    rw [hardSelect_stop rand distractorCount [] sel (by simp)] at heq
    rw [← Option.some.inj heq]
    exact hsel
  | succ n ih =>
    intro pool sel hn hsel result heq
    by_cases h : sel.length < distractorCount ∧ pool ≠ []
    · have hlt : poolPickIndex rand pool sel < pool.length := poolPickIndex_lt rand pool sel h.2
      have hidx : pool[poolPickIndex rand pool sel]? = some pool[poolPickIndex rand pool sel] :=
        List.getElem?_eq_getElem hlt
      rw [hardSelect_step rand distractorCount pool sel _ h hidx] at heq
      refine ih (pool.eraseIdx (poolPickIndex rand pool sel))
        (sel ++ [pool[poolPickIndex rand pool sel].country]) ?_ ?_ result heq
      · simp only [List.length_eraseIdx, if_pos hlt]
        omega
      · rw [List.length_append, List.length_singleton]
        omega
    · rw [hardSelect_stop rand distractorCount pool sel h] at heq
      rw [← Option.some.inj heq]
      exact hsel

theorem pickHardModeDistractors_length_le (rand : Rand) (questionCountry : Country)
    (candidateCountries : List Country) (distractorCount : Nat)
    (attributesByCca3 : String → Option FlagAttributes) :
    (pickHardModeDistractors rand questionCountry candidateCountries distractorCount
      attributesByCca3).length ≤ distractorCount := by
  unfold pickHardModeDistractors
  split
  · simp
  · next hz =>
    split
    · next hattr =>
      exact List.length_take_le _ _
    · next sourceAttributes hattr =>
      have hsome := hardSelect_isSome rand distractorCount
        (rankCandidates candidateCountries attributesByCca3 sourceAttributes).length
        (rankCandidates candidateCountries attributesByCca3 sourceAttributes) [] le_rfl
      obtain ⟨extra, heq⟩ := Option.isSome_iff_exists.mp hsome
      have hlen : extra.length ≤ distractorCount :=
        hardSelect_length_le rand distractorCount
          (rankCandidates candidateCountries attributesByCca3 sourceAttributes).length
          (rankCandidates candidateCountries attributesByCca3 sourceAttributes) []
          le_rfl (by simp) extra heq
      simp only [heq, Option.getD_some]
      split
      · exact hlen
      · rw [List.length_append]
        have hfb := List.length_take_le (distractorCount - extra.length)
          (fisherYates rand.shuffleB (candidateCountries.filter
            (fun country => !(extra.map Country.cca3).contains country.cca3)))
        omega

theorem pickHardModeDistractors_empty (rand : Rand) (questionCountry : Country)
    (candidateCountries : List Country) (distractorCount : Nat)
    (attributesByCca3 : String → Option FlagAttributes)
    (hz : distractorCount = 0 ∨ candidateCountries = []) :
    pickHardModeDistractors rand questionCountry candidateCountries distractorCount
      attributesByCca3 = [] := by
  unfold pickHardModeDistractors
  rw [if_pos hz]

/-- C5 amended: unconditionally, the result of `pickHardModeDistractors`
has length at most `count` and is empty whenever `count = 0` or the
candidate list is empty; provided the candidate list has pairwise-distinct
`cca3` identifiers and does not contain the target's identifier, the result
additionally has no duplicate identifiers and never contains the target. -/
theorem pick_distractors_amended (rand : Rand) (questionCountry : Country)
    (candidateCountries : List Country) (distractorCount : Nat)
    (attributesByCca3 : String → Option FlagAttributes) :
    (pickHardModeDistractors rand questionCountry candidateCountries distractorCount
      attributesByCca3).length ≤ distractorCount ∧
    ((distractorCount = 0 ∨ candidateCountries = []) →
      pickHardModeDistractors rand questionCountry candidateCountries distractorCount
        attributesByCca3 = []) ∧
    (Cca3Distinct candidateCountries →
      questionCountry.cca3 ∉ candidateCountries.map Country.cca3 →
      Cca3Distinct (pickHardModeDistractors rand questionCountry candidateCountries
        distractorCount attributesByCca3) ∧
      questionCountry ∉ pickHardModeDistractors rand questionCountry candidateCountries
        distractorCount attributesByCca3) := by
  refine ⟨pickHardModeDistractors_length_le rand questionCountry candidateCountries
      distractorCount attributesByCca3,
    pickHardModeDistractors_empty rand questionCountry candidateCountries
      distractorCount attributesByCca3, ?_⟩
  intro hnd hq
  obtain ⟨hsub, hnodup, _⟩ := pickHardModeDistractors_spec rand questionCountry
    candidateCountries distractorCount attributesByCca3 hnd
  refine ⟨hnodup, ?_⟩
  intro hmem
  exact hq (List.mem_map_of_mem Country.cca3 (hsub questionCountry hmem))

/-- Witness for the amended C5 at a concrete input, discharging the
hypotheses of the conditional part. -/
theorem pick_distractors_amended_witness :
    (pickHardModeDistractors sampleRand countryA [countryB] 1 noAttributes).length ≤ 1 ∧
    ((1 = 0 ∨ ([countryB] : List Country) = []) →
      pickHardModeDistractors sampleRand countryA [countryB] 1 noAttributes = []) ∧
    (Cca3Distinct (pickHardModeDistractors sampleRand countryA [countryB] 1
        noAttributes) ∧
      countryA ∉ pickHardModeDistractors sampleRand countryA [countryB] 1 noAttributes) :=
  ⟨(pick_distractors_amended sampleRand countryA [countryB] 1 noAttributes).1,
    (pick_distractors_amended sampleRand countryA [countryB] 1 noAttributes).2.1,
    (pick_distractors_amended sampleRand countryA [countryB] 1 noAttributes).2.2
      (by decide) (by decide)⟩

/-- C7 counterexample: the claim asserts the existence of entities, both
present in the attribute index, one with an explicitly empty motif list and
one with no motif field, whose `motif-simple` membership differs.  No such
entities exist: membership is identical (both are members). -/
theorem motif_simple_counterexample :
    ¬ ∃ (validCountries : List Country) (attributesByCca3 : String → Option FlagAttributes)
        (c₁ c₂ : Country) (a₁ a₂ : FlagAttributes),
      c₁ ∈ validCountries ∧ c₂ ∈ validCountries ∧
      attributesByCca3 c₁.cca3 = some a₁ ∧ attributesByCca3 c₂.cca3 = some a₂ ∧
      a₁.motif = some [] ∧ a₂.motif = none ∧
      ¬ ((c₁ ∈ getMemoryCategoryCountries validCountries attributesByCca3
            motifSimpleCategory) ↔
         (c₂ ∈ getMemoryCategoryCountries validCountries attributesByCca3
            motifSimpleCategory)) := by
  rintro ⟨validCountries, attributesByCca3, c₁, c₂, a₁, a₂, hc₁, hc₂, ha₁, ha₂, hm₁, hm₂,
    hdiff⟩
  apply hdiff
  rw [mem_motifSimple_iff validCountries attributesByCca3 c₁ a₁ hc₁ ha₁,
    mem_motifSimple_iff validCountries attributesByCca3 c₂ a₂ hc₂ ha₂, hm₁, hm₂]
  simp

/-- C7 amended: `getMemoryCategoryCountries` does NOT distinguish an entity
whose record has an explicitly empty motif list from one whose record is in
the index with no motif field: both are members of `motif-simple`.  (Only
an entity absent from the index is excluded.) -/
theorem motif_simple_amended (validCountries : List Country)
    (attributesByCca3 : String → Option FlagAttributes) (c₁ c₂ : Country)
    (a₁ a₂ : FlagAttributes) (hc₁ : c₁ ∈ validCountries) (hc₂ : c₂ ∈ validCountries)
    (ha₁ : attributesByCca3 c₁.cca3 = some a₁) (ha₂ : attributesByCca3 c₂.cca3 = some a₂)
    (hm₁ : a₁.motif = some []) (hm₂ : a₂.motif = none) :
    c₁ ∈ getMemoryCategoryCountries validCountries attributesByCca3 motifSimpleCategory ∧
    c₂ ∈ getMemoryCategoryCountries validCountries attributesByCca3 motifSimpleCategory := by
  constructor
  · rw [mem_motifSimple_iff validCountries attributesByCca3 c₁ a₁ hc₁ ha₁, hm₁]
    rfl
  · rw [mem_motifSimple_iff validCountries attributesByCca3 c₂ a₂ hc₂ ha₂, hm₂]
    rfl

/-- Witness for the amended C7 at a concrete input. -/
theorem motif_simple_amended_witness :
    countryA ∈ getMemoryCategoryCountries [countryA, countryB] distinguishAttributes
      motifSimpleCategory ∧
    countryB ∈ getMemoryCategoryCountries [countryA, countryB] distinguishAttributes
      motifSimpleCategory :=
  motif_simple_amended [countryA, countryB] distinguishAttributes countryA countryB
    emptyMotifAttributes emptyAttributes (by decide) (by decide) (by decide) (by decide)
    (by decide) (by decide)

/-- C9: if some candidate display name of an entity has an exact hit in the
normalized raw index, the resolver binds that entity to the first exactly
matched key's attributes; a loose match is never consulted for it. -/
theorem resolver_exact_precedence (nfkc : String → String) (countries : List Country)
    (raw : List (String × FlagAttributes)) (c : Country) (exactMatch : String)
    (hnd : Cca3Distinct countries) (hc : c ∈ countries)
    (hfind : (getCountryNameCandidates nfkc c).find?
      (fun name => (byExactNameGet nfkc raw name).isSome) = some exactMatch) :
    mapGet (buildFlagAttributesByCca3 nfkc countries raw) c.cca3 =
      byExactNameGet nfkc raw exactMatch := by
  have hpred := List.find?_some hfind
  obtain ⟨a, ha⟩ := Option.isSome_iff_exists.mp hpred
  have hentry : (c.cca3, a) ∈ buildFlagAttributesByCca3 nfkc countries raw := by
    unfold buildFlagAttributesByCca3
    exact List.mem_filterMap.mpr ⟨c, hc, resolveCountry_exact nfkc raw c exactMatch a hfind ha⟩
  have hkeys : ((buildFlagAttributesByCca3 nfkc countries raw).map Prod.fst).Nodup := by
    unfold buildFlagAttributesByCca3
    exact ((filterMap_keys_sublist (resolveCountry nfkc raw)
      (resolveCountry_key nfkc raw) countries)).nodup hnd
  rw [mapGet_of_mem_of_nodup_keys _ _ _ hkeys hentry, ha]

/-- Witness for C9 at a concrete input (identity normalization; the
localized common name hits the first raw key exactly). -/
theorem resolver_exact_precedence_witness :
    mapGet (buildFlagAttributesByCca3 id [countryJ] sampleRaw) countryJ.cca3 =
      byExactNameGet id sampleRaw "Nihon" :=
  resolver_exact_precedence id [countryJ] sampleRaw countryJ "Nihon"
    (by decide) (by decide) (by decide)

/-- C1: in a global multiple-choice mode over a pool with distinct
identifiers, a pool smaller than `roundCount * optionCount` yields the
infeasible sentinel, and a pool of exactly that size yields a plan whose
rounds together use every entity of the pool exactly once. -/
theorem global_plan_feasibility (pr : PlanRand) (mode : GameMode)
    (validCountries : List Country) (settings : GameSettings)
    (attributesByCca3 : String → Option FlagAttributes)
    (memoryCategory : Option MemoryCategory)
    (hmode : isStandardChoiceMode mode = true) (hnd : Cca3Distinct validCountries) :
    (validCountries.length < clampedMaxRounds settings * clampedOptionCount settings →
      buildRoundPlan pr mode validCountries settings attributesByCca3 memoryCategory =
        none) ∧
    (validCountries.length = clampedMaxRounds settings * clampedOptionCount settings →
      ∃ plan, buildRoundPlan pr mode validCountries settings attributesByCca3
          memoryCategory = some plan ∧
        ((plan.flatMap (fun it => it.options)).map Country.cca3).Perm
          (validCountries.map Country.cca3)) := by
  have hmem := standard_not_memory mode hmode
  have hopts := standard_uses_options mode hmode
  rw [buildRoundPlan_global_eq pr mode validCountries settings attributesByCca3
    memoryCategory hmem hopts]
  constructor
  · intro h
    rw [if_pos h]
  · intro h
    rw [if_neg (by omega)]
    have hoc : 1 ≤ clampedOptionCount settings := by
      have := clampedOptionCount_ge_two settings
      omega
    have hshufnd : Cca3Distinct (fisherYates pr.poolShuffle validCountries) :=
      ((fisherYates_map_perm pr.poolShuffle validCountries Country.cca3).nodup_iff).mpr hnd
    have hshuflen : (fisherYates pr.poolShuffle validCountries).length =
        validCountries.length := fisherYates_length _ _
    obtain ⟨plan, hplan⟩ := buildGlobalRounds_total pr settings.highDifficulty
      attributesByCca3 (clampedOptionCount settings) hoc (clampedMaxRounds settings) 0
      (fisherYates pr.poolShuffle validCountries) hshufnd (by omega)
    obtain ⟨rest, hplen, hperm, hitems⟩ := buildGlobalRounds_spec pr settings.highDifficulty
      attributesByCca3 (clampedOptionCount settings) hoc (clampedMaxRounds settings) 0
      (fisherYates pr.poolShuffle validCountries) plan hshufnd hplan
    refine ⟨plan, hplan, ?_⟩
    have hflatlen : (plan.flatMap (fun it => it.options)).length =
        clampedMaxRounds settings * clampedOptionCount settings := by
      rw [List.length_flatMap]
      have hrep : plan.map (List.length ∘ fun it => it.options) =
          List.replicate plan.length (clampedOptionCount settings) := by
        have hlen2 : (plan.map (List.length ∘ fun it => it.options)).length = plan.length :=
          List.length_map _ _
        rw [← hlen2]
        apply List.eq_replicate_of_mem
        intro b hb
        obtain ⟨it, hit, rfl⟩ := List.mem_map.mp hb
        exact (hitems it hit).1
      rw [hrep, List.sum_replicate, smul_eq_mul, hplen]
    have hpermlen := hperm.length_eq
    rw [List.length_append, List.length_map, List.length_map, List.length_map,
      hflatlen, hshuflen, h] at hpermlen
    have hrest : rest = [] := List.length_eq_zero.mp (by omega)
    subst hrest
    rw [List.map_nil, List.append_nil] at hperm
    exact hperm.trans (fisherYates_map_perm pr.poolShuffle validCountries Country.cca3)

/-- Witness for C1 at a concrete input: a pool of exactly
`1 * 2 = 2` entities. -/
theorem global_plan_feasibility_witness :
    (([countryA, countryB] : List Country).length <
        clampedMaxRounds sampleSettings * clampedOptionCount sampleSettings →
      buildRoundPlan samplePlanRand GameMode.nameToFlag [countryA, countryB]
        sampleSettings noAttributes none = none) ∧
    (([countryA, countryB] : List Country).length =
        clampedMaxRounds sampleSettings * clampedOptionCount sampleSettings →
      ∃ plan, buildRoundPlan samplePlanRand GameMode.nameToFlag [countryA, countryB]
          sampleSettings noAttributes none = some plan ∧
        ((plan.flatMap (fun it => it.options)).map Country.cca3).Perm
          (([countryA, countryB] : List Country).map Country.cca3)) :=
  global_plan_feasibility samplePlanRand GameMode.nameToFlag [countryA, countryB]
    sampleSettings noAttributes none (by decide) (by decide)

/-- C2: in a global multiple-choice mode over a pool with distinct
identifiers, no identifier occurs in more than one round of a returned
plan, whether as the round's question or inside its options. -/
theorem global_plan_cross_round_disjoint (pr : PlanRand) (mode : GameMode)
    (validCountries : List Country) (settings : GameSettings)
    (attributesByCca3 : String → Option FlagAttributes)
    (memoryCategory : Option MemoryCategory) (plan : List RoundPlanItem)
    (hmode : isStandardChoiceMode mode = true) (hnd : Cca3Distinct validCountries)
    (hplan : buildRoundPlan pr mode validCountries settings attributesByCca3
      memoryCategory = some plan) :
    plan.Pairwise (fun r s => ∀ id : String,
      id ∈ (r.questionCountry :: r.options).map Country.cca3 →
      id ∉ (s.questionCountry :: s.options).map Country.cca3) := by
  have hmem := standard_not_memory mode hmode
  have hopts := standard_uses_options mode hmode
  rw [buildRoundPlan_global_eq pr mode validCountries settings attributesByCca3
    memoryCategory hmem hopts] at hplan
  split at hplan
  · exact absurd hplan (by simp)
  · have hoc : 1 ≤ clampedOptionCount settings := by
      have := clampedOptionCount_ge_two settings
      omega
    have hshufnd : Cca3Distinct (fisherYates pr.poolShuffle validCountries) :=
      ((fisherYates_map_perm pr.poolShuffle validCountries Country.cca3).nodup_iff).mpr hnd
    obtain ⟨rest, hplen, hperm, hitems⟩ := buildGlobalRounds_spec pr settings.highDifficulty
      attributesByCca3 (clampedOptionCount settings) hoc (clampedMaxRounds settings) 0
      (fisherYates pr.poolShuffle validCountries) plan hshufnd hplan
    have hflatnd : ((plan.flatMap (fun it => it.options)).map Country.cca3).Nodup := by
      have hall : ((plan.flatMap (fun it => it.options)).map Country.cca3 ++
          rest.map Country.cca3).Nodup := (hperm.nodup_iff).mpr hshufnd
      exact hall.of_append_left
    rw [List.map_flatMap] at hflatnd
    obtain ⟨heach, hpair⟩ := List.nodup_flatMap.mp hflatnd
    refine hpair.imp_of_mem ?_
    intro r s hr hs hdisj id hid hids
    have hrq : r.questionCountry ∈ r.options := (hitems r hr).2
    have hsq : s.questionCountry ∈ s.options := (hitems s hs).2
    have hid2 : id ∈ r.options.map Country.cca3 := by
      rw [List.map_cons] at hid
      rcases List.mem_cons.mp hid with hid | hid
      · exact hid ▸ List.mem_map_of_mem Country.cca3 hrq
      · exact hid
    have hids2 : id ∈ s.options.map Country.cca3 := by
      rw [List.map_cons] at hids
      rcases List.mem_cons.mp hids with hids | hids
      · exact hids ▸ List.mem_map_of_mem Country.cca3 hsq
      · exact hids
    exact hdisj hid2 hids2

/-- Witness for C2 at a concrete input. -/
theorem global_plan_cross_round_disjoint_witness :
    List.Pairwise (fun r s => ∀ id : String,
      id ∈ (r.questionCountry :: r.options).map Country.cca3 →
      id ∉ (s.questionCountry :: s.options).map Country.cca3)
      [RoundPlanItem.mk countryB [countryA, countryB]] :=
  global_plan_cross_round_disjoint samplePlanRand GameMode.nameToFlag
    [countryA, countryB] sampleSettings noAttributes none
    [RoundPlanItem.mk countryB [countryA, countryB]] (by decide) (by decide) (by decide)

/-- C3: in every plan returned by `buildRoundPlan` over a pool with
distinct identifiers, every round with non-empty options has no duplicate
identifiers among its options, contains its question exactly once, and has
exactly the plan's effective option count of options. -/
theorem plan_options_uniqueness (pr : PlanRand) (mode : GameMode)
    (validCountries : List Country) (settings : GameSettings)
    (attributesByCca3 : String → Option FlagAttributes)
    (memoryCategory : Option MemoryCategory) (plan : List RoundPlanItem)
    (hnd : Cca3Distinct validCountries)
    (hplan : buildRoundPlan pr mode validCountries settings attributesByCca3
      memoryCategory = some plan) :
    ∀ it ∈ plan, it.options ≠ [] →
      Cca3Distinct it.options ∧ it.options.count it.questionCountry = 1 ∧
      it.options.length =
        planEffectiveOptionCount mode validCountries settings attributesByCca3
          memoryCategory := by
  cases hmem : isMemoryMode mode with
  | true =>
    cases memoryCategory with
    | none =>
      rw [buildRoundPlan_memory_none pr mode validCountries settings attributesByCca3
        hmem] at hplan
      exact absurd hplan (by simp)
    | some category =>
      rw [buildRoundPlan_memory_eq pr mode validCountries settings attributesByCca3
        category hmem] at hplan
      split at hplan
      · exact absurd hplan (by simp)
      · next hge =>
        obtain ⟨hqs, hitems⟩ := buildMemoryRounds_spec pr settings.highDifficulty
          attributesByCca3 _ _ _ 0 plan hplan
        intro it hit hne
        have hfilnd : Cca3Distinct (getMemoryCategoryCountries validCountries
            attributesByCca3 category) :=
          ((getMemoryCategoryCountries_sublist validCountries attributesByCca3
            category).map Country.cca3).nodup hnd
        have hshufnd : Cca3Distinct (fisherYates pr.poolShuffle
            (getMemoryCategoryCountries validCountries attributesByCca3 category)) :=
          ((fisherYates_map_perm pr.poolShuffle _ Country.cca3).nodup_iff).mpr hfilnd
        rw [Nat.not_lt] at hge
        have h2 : (2 : Nat) ≤ clampedOptionCount settings := clampedOptionCount_ge_two settings
        have htoNat : MIN_OPTION_COUNT.toNat = 2 := rfl
        rw [htoNat] at hge
        obtain ⟨hl, hm, hd, hc⟩ := hitems hshufnd (by omega) it hit
        refine ⟨hd, hc, ?_⟩
        rw [hl]
        simp [planEffectiveOptionCount, hmem, fisherYates_length]
  | false =>
    cases hopts : modeUsesOptions mode with
    | true =>
      rw [buildRoundPlan_global_eq pr mode validCountries settings attributesByCca3
        memoryCategory hmem hopts] at hplan
      split at hplan
      · exact absurd hplan (by simp)
      · have hoc : 1 ≤ clampedOptionCount settings := by
          have := clampedOptionCount_ge_two settings
          omega
        have hshufnd : Cca3Distinct (fisherYates pr.poolShuffle validCountries) :=
          ((fisherYates_map_perm pr.poolShuffle validCountries Country.cca3).nodup_iff).mpr
            hnd
        obtain ⟨rest, hplen, hperm, hitems⟩ := buildGlobalRounds_spec pr
          settings.highDifficulty attributesByCca3 (clampedOptionCount settings) hoc
          (clampedMaxRounds settings) 0 (fisherYates pr.poolShuffle validCountries) plan
          hshufnd hplan
        have hflatnd : ((plan.flatMap (fun it => it.options)).map Country.cca3).Nodup := by
          have hall : ((plan.flatMap (fun it => it.options)).map Country.cca3 ++
              rest.map Country.cca3).Nodup := (hperm.nodup_iff).mpr hshufnd
          exact hall.of_append_left
        rw [List.map_flatMap] at hflatnd
        obtain ⟨heach, _⟩ := List.nodup_flatMap.mp hflatnd
        intro it hit hne
        have hoptnd : (it.options.map Country.cca3).Nodup := heach it hit
        refine ⟨hoptnd, ?_, ?_⟩
        · exact List.count_eq_one_of_mem (List.Nodup.of_map Country.cca3 hoptnd)
            (hitems it hit).2
        · rw [(hitems it hit).1]
          simp [planEffectiveOptionCount, hmem]
    | false =>
      rw [buildRoundPlan_noOptions_eq pr mode validCountries settings attributesByCca3
        memoryCategory hmem hopts] at hplan
      split at hplan
      · exact absurd hplan (by simp)
      · have hplan2 := (Option.some.inj hplan).symm
        intro it hit hne
        rw [hplan2] at hit
        obtain ⟨q, _, hq⟩ := List.mem_map.mp hit
        rw [← hq] at hne
        exact absurd rfl hne

/-- Witness for C3 at a concrete input. -/
theorem plan_options_uniqueness_witness :
    Cca3Distinct (RoundPlanItem.mk countryB [countryA, countryB]).options ∧
    (RoundPlanItem.mk countryB [countryA, countryB]).options.count
      (RoundPlanItem.mk countryB [countryA, countryB]).questionCountry = 1 ∧
    (RoundPlanItem.mk countryB [countryA, countryB]).options.length =
      planEffectiveOptionCount GameMode.nameToFlag [countryA, countryB] sampleSettings
        noAttributes none :=
  plan_options_uniqueness samplePlanRand GameMode.nameToFlag [countryA, countryB]
    sampleSettings noAttributes none [RoundPlanItem.mk countryB [countryA, countryB]]
    (by decide) (by decide) (RoundPlanItem.mk countryB [countryA, countryB])
    (by decide) (by decide)

/-- C4: a memory-mode plan over a filtered category of size `M` is
infeasible when `M < 2`; any returned plan has exactly `M` rounds whose
questions are a permutation of the filtered set (each filtered entity
appears exactly once as a question, regardless of the requested maximum
round count). -/
theorem memory_plan_complete_coverage (pr : PlanRand) (mode : GameMode)
    (validCountries : List Country) (settings : GameSettings)
    (attributesByCca3 : String → Option FlagAttributes) (category : MemoryCategory)
    (hmem : isMemoryMode mode = true) :
    ((getMemoryCategoryCountries validCountries attributesByCca3 category).length < 2 →
      buildRoundPlan pr mode validCountries settings attributesByCca3 (some category) =
        none) ∧
    (∀ plan, buildRoundPlan pr mode validCountries settings attributesByCca3
        (some category) = some plan →
      plan.length =
        (getMemoryCategoryCountries validCountries attributesByCca3 category).length ∧
      (plan.map (fun it => it.questionCountry)).Perm
        (getMemoryCategoryCountries validCountries attributesByCca3 category)) := by
  rw [buildRoundPlan_memory_eq pr mode validCountries settings attributesByCca3
    category hmem]
  have htoNat : MIN_OPTION_COUNT.toNat = 2 := rfl
  constructor
  · intro h
    rw [if_pos (by rw [fisherYates_length, htoNat]; omega)]
  · intro plan hplan
    split at hplan
    · exact absurd hplan (by simp)
    · obtain ⟨hqs, _⟩ := buildMemoryRounds_spec pr settings.highDifficulty attributesByCca3
        _ _ _ 0 plan hplan
      constructor
      · have hlen := congrArg List.length hqs
        rw [List.length_map] at hlen
        rw [hlen, fisherYates_length]
      · rw [hqs]
        exact fisherYates_perm _ _

/-- Witness for C4 at a concrete input: the `europe` region category over a
two-entity European pool. -/
theorem memory_plan_complete_coverage_witness :
    ((getMemoryCategoryCountries [countryA, countryB] noAttributes
        europeCategory).length < 2 →
      buildRoundPlan samplePlanRand GameMode.memoryNameToFlag [countryA, countryB]
        sampleSettings noAttributes (some europeCategory) = none) ∧
    (∀ plan, buildRoundPlan samplePlanRand GameMode.memoryNameToFlag [countryA, countryB]
        sampleSettings noAttributes (some europeCategory) = some plan →
      plan.length = (getMemoryCategoryCountries [countryA, countryB] noAttributes
        europeCategory).length ∧
      (plan.map (fun it => it.questionCountry)).Perm
        (getMemoryCategoryCountries [countryA, countryB] noAttributes europeCategory)) :=
  memory_plan_complete_coverage samplePlanRand GameMode.memoryNameToFlag
    [countryA, countryB] sampleSettings noAttributes europeCategory (by decide)

end FlagGame
